import Mathlib

/-!
# shingetsu-gou / gou : peer representation (`node/node.go`)

A shallow embedding of the `Node` / `Myself` code of `node/node.go`, of the
stamp table of `gou/mch_keylib.go` and of the range settings of
`cfg/config.go`, with the properties of their specification stated and proved
over the embedding.

Modelling conventions

* A Go `string` is a `List Char` (`Str`).  All the characters the code tests
  for (`+`, `/`, `:`, the blank, the decimal digits) are ASCII, so mapping and
  matching per character agree with Go's per-byte / per-rune behaviour.
* A Go call either returns, or ends the process through `log.Fatal`, or panics
  (index out of range): `Outcome`.
* A Go result pair `(*Node, error)` is a pair of options, `nil` being `none`.
* The global `NodeCfg` is an explicit argument (`none` is the nil pointer).  A
  `Node` carries a pointer to that same configuration, so the methods of a
  `Node` take the configuration they point to as an argument.
* The network (`net/http`) and `net.ParseIP` are parameters: `Net`.
* Locks, logging and timeouts have no effect on the values computed and are
  left out.
* An `int64` is an `Int`, and an increment wraps around as in Go:
  `wrapInt64`.  A Go `map` is a function to `Option`, an absent key being
  `none`.  A loop that may run for ever takes the number of turns it is
  observed for.
-/

namespace Gou

/-- Go strings, as lists of characters. -/
abbrev Str := List Char

/-- How a Go call ends: it returns a value, it stops the process with
`log.Fatal`, or it panics at run time. -/
inductive Outcome (α : Type) where
  | returns (a : α)
  | fatal
  | panics
deriving DecidableEq, Repr

/-- The error values built in `node.go`, and the errors of the transport. -/
inductive GoError where
  /-- `errors.New("nodestr is empty")` -/
  | emptyNodestr
  /-- `errors.New(fmt.Sprintln("bad format", err, nodestr))` -/
  | badFormat (nodestr : Str)
  /-- `errors.New("n==nil")` -/
  | nilNode
  /-- `errors.New("connected,but not ponged")` -/
  | notPonged
  /-- `errors.New(fmt.Sprintln(n.Nodestr, "is not allowd"))` -/
  | notAllowed (nodestr : Str)
  /-- `errors.New("illegal response")` -/
  | illegalResponse
  /-- `errors.New("not welcomed")` -/
  | notWelcomed
  /-- `errors.New(fmt.Sprintln("/node", n.Nodestr, "error"))` -/
  | nodeError (nodestr : Str)
  /-- an error of `net/http`, identified by a code -/
  | transport (code : Nat)
deriving DecidableEq, Repr

/-! ## Library functions of Go used by the code -/

/-- `unicode.IsSpace`: the characters `strings.TrimSpace` removes. -/
def isSpace (c : Char) : Bool :=
  let v := c.toNat
  (9 ≤ v && v ≤ 13) || v == 32 || v == 0x85 || v == 0xA0 || v == 0x1680 ||
  (0x2000 ≤ v && v ≤ 0x200A) || v == 0x2028 || v == 0x2029 || v == 0x202F ||
  v == 0x205F || v == 0x3000

/-- `strings.TrimSpace`: drops the leading and the trailing white space. -/
def TrimSpace (s : Str) : Str :=
  ((s.dropWhile isSpace).reverse.dropWhile isSpace).reverse

/-- `strings.Replace(s, old, new, -1)` for one-character `old` and `new`, the
only way `node.go` calls it: every occurrence is replaced. -/
def Replace (s : Str) (old new : Char) : Str :=
  s.map (fun c => if c = old then new else c)

/-- `strings.HasPrefix(s, "/")`. -/
def hasSlashPrefix (s : Str) : Bool :=
  match s with
  | '/' :: _ => true
  | _ => false

/-- `strconv.Itoa`: decimal digits, with a leading `-` for a negative value. -/
def Itoa (i : Int) : Str :=
  match i with
  | Int.ofNat n => Nat.toDigits 10 n
  | Int.negSucc n => '-' :: Nat.toDigits 10 (n + 1)

/-- `net.JoinHostPort`, as the Go library documents it: `host:port`, or
`[host]:port` when the host contains a colon (Go releases before 1.10 put the
brackets around a host with a `%` as well). -/
def JoinHostPort (host port : Str) : Str :=
  if ':' ∈ host then '[' :: host ++ ']' :: ':' :: port else host ++ ':' :: port

/-! ## The pattern `\d+/[^: ]+$` -/

/-- The class `[^: ]`: any character but the colon and the blank. -/
def pathChar (c : Char) : Bool := c != ':' && c != ' '

/-- `[^: ]+$` matched from the head of `cs`: one or more path characters up to
the end of the text. -/
def matchPath (cs : Str) : Bool :=
  match cs with
  | [] => false
  | c :: rest => pathChar c && rest.all pathChar

/-- `\d+/[^: ]+$` matched from the head of `cs`.  The run of digits is taken
whole: a digit is never a `/`, so a shorter run cannot match where the
longest one does not. -/
def matchHere (cs : Str) : Bool :=
  match cs with
  | [] => false
  | c :: rest =>
    c.isDigit &&
      (match rest.dropWhile Char.isDigit with
       | '/' :: p => matchPath p
       | _ => false)

/-- `regexp.MatchString` with the pattern `\d+/[^: ]+$`: the pattern is not
anchored on the left, so a match may start at any position. -/
def matchString (cs : Str) : Bool :=
  match cs with
  | [] => false
  | c :: rest => matchHere (c :: rest) || matchString rest

/-! ## Data model -/

/-- `Node`: the address of a peer.  The embedded `*NodeConfig` is the global
configuration, passed to the methods as an argument. -/
structure Node where
  Nodestr : Str
  cannotRelay : Bool
deriving DecidableEq, Repr

/-- `Myself`: the local node.  The callback and the lock are left out. -/
structure Myself where
  ip : Str
  Port : Int
  Path : Str
  ServerName : Str
  port0 : Bool
  relayServer : Option Node
deriving DecidableEq, Repr

/-- `NodeConfig`; `NodeAllow` and `NodeDeny` stand for the `Check` method of
the two `util.RegexpList` values. -/
structure NodeConfig where
  Myself : Myself
  NodeAllow : Str → Bool
  NodeDeny : Str → Bool
  Version : Str

/-- The outside world: what an HTTP GET of a URL with a user agent yields (the
lines of the body and an error; `http.NewRequest` failing is `fatal`), and
whether `net.ParseIP` accepts a string. -/
structure Net where
  httpGet : Str → Str → Outcome (List Str × Option GoError)
  ParseIP : Str → Bool

/-- A Go result `(*Node, error)`. -/
abbrev NodeResult := Option Node × Option GoError

/-! ## `Myself` -/

/-- `NewMyself`. -/
def NewMyself (port : Int) (path serverName : Str) : Myself :=
  { ip := [], Port := port, Path := path, ServerName := serverName,
    port0 := false, relayServer := none }

/-- `Myself.IsRelayed`. -/
def Myself.IsRelayed (m : Myself) : Bool := m.port0 && m.relayServer.isSome

/-- `Myself.IsPort0`. -/
def Myself.IsPort0 (m : Myself) : Bool := m.port0 && m.relayServer.isNone

/-- `Myself.setPort0`. -/
def Myself.setPort0 (m : Myself) (port0 : Bool) : Myself := { m with port0 := port0 }

/-- `Myself.setIP`: the address is stored when `net.ParseIP` accepts it. -/
def Myself.setIP (net : Net) (m : Myself) (ip : Str) : Myself :=
  if net.ParseIP ip then { m with ip := ip } else m

/-- `Myself.proxyURL`. -/
def Myself.proxyURL (m : Myself) (path : Str) : Str :=
  match m.relayServer with
  | none => path
  | some r => r.Nodestr ++ "/proxy/".toList ++ path

/-! ## `Node` -/

/-- `newNode`: checks the format of `nodestr` and builds the node.  The pattern
is a constant that compiles, so `regexp.MatchString` reports no error and the
test `!match || err != nil` is `!match`. -/
def newNode (NodeCfg : Option NodeConfig) (nodestr : Str) : Outcome NodeResult :=
  match NodeCfg with
  | none => .fatal
  | some _ =>
    let nodestr := TrimSpace nodestr
    if nodestr = [] then
      .returns (none, some .emptyNodestr)
    else if !matchString nodestr then
      .returns (none, some (.badFormat nodestr))
    else
      .returns (some { Nodestr := Replace nodestr '+' '/', cannotRelay := false }, none)

/-- `MakeNode`. -/
def MakeNode (NodeCfg : Option NodeConfig) (host path : Str) (port : Int) :
    Outcome NodeResult :=
  newNode NodeCfg (JoinHostPort host (Itoa port) ++ Replace path '+' '/')

/-- `Node.toxstring`. -/
def Node.toxstring (n : Node) : Str := Replace n.Nodestr '/' '+'

/-- `Node.equals`. -/
def Node.equals (n : Node) (nn : Option Node) : Bool :=
  match nn with
  | none => false
  | some nn => n.Nodestr = nn.Nodestr

/-- `Myself.toNode`: `log.Fatal` when `newNode` reports an error (`newNode`
returns a node whenever it returns no error). -/
def Myself.toNode (NodeCfg : Option NodeConfig) (m : Myself) : Outcome Node :=
  let serverName := if m.ServerName = [] then m.ip else m.ServerName
  let serverName :=
    match m.relayServer with
    | some r => r.Nodestr ++ "/relay/".toList ++ serverName
    | none => serverName
  match newNode NodeCfg (serverName ++ ':' :: Itoa m.Port ++ m.Path) with
  | .returns (some n, none) => .returns n
  | .returns _ => .fatal
  | .fatal => .fatal
  | .panics => .panics

/-- `Myself.Nodestr`. -/
def Myself.Nodestr (NodeCfg : Option NodeConfig) (m : Myself) : Outcome Str :=
  match Myself.toNode NodeCfg m with
  | .returns n => .returns n.Nodestr
  | .fatal => .fatal
  | .panics => .panics

/-- `Myself.toxstring`. -/
def Myself.toxstring (NodeCfg : Option NodeConfig) (m : Myself) : Outcome Str :=
  match Myself.toNode NodeCfg m with
  | .returns n => .returns n.toxstring
  | .fatal => .fatal
  | .panics => .panics

/-- `Node.urlopen`: a GET of `url` with the user agent of this version. -/
def Node.urlopen (net : Net) (cfg : NodeConfig) (url : Str) :
    Outcome (List Str × Option GoError) :=
  net.httpGet url ("shinGETsuPlus/0.8alpha (Gou/".toList ++ cfg.Version ++ ")".toList)

/-- `Node.Talk`; the receiver may be nil. -/
def Node.Talk (net : Net) (cfg : NodeConfig) (n : Option Node) (message : Str)
    (proxy : Bool) : Outcome (List Str × Option GoError) :=
  let message := if !hasSlashPrefix message then '/' :: message else message
  match n with
  | none => .returns ([], some .nilNode)
  | some n =>
    let msg := "http://".toList ++ n.Nodestr ++ message
    let msg :=
      if proxy then "http://".toList ++ cfg.Myself.proxyURL (n.Nodestr ++ message) else msg
    Node.urlopen net cfg msg

/-- `Node.Ping`: the result pair and the state of `Myself` afterwards.
`res[0]` and `res[1]` panic when the index is out of range. -/
def Node.Ping (net : Net) (cfg : NodeConfig) (n : Node) :
    Outcome ((Str × Option GoError) × Myself) :=
  match Node.Talk net cfg (some n) "/ping".toList false with
  | .fatal => .fatal
  | .panics => .panics
  | .returns (_, some err) => .returns (([], some err), cfg.Myself)
  | .returns (res, none) =>
    match res[0]? with
    | none => .panics
    | some r0 =>
      if r0 = "PONG".toList && res.length = 2 then
        match res[1]? with
        | none => .panics
        | some r1 => .returns ((r1, none), cfg.Myself.setIP net r1)
      else
        .returns (([], some .notPonged), cfg.Myself)

/-- `Node.IsAllowed`. -/
def Node.IsAllowed (cfg : NodeConfig) (n : Node) : Bool :=
  if !cfg.NodeAllow n.Nodestr && cfg.NodeDeny n.Nodestr then false else true

/-- `Node.join`. -/
def Node.join (net : Net) (cfg : NodeConfig) (n : Node) : Outcome NodeResult :=
  if !n.IsAllowed cfg then
    .returns (none, some (.notAllowed n.Nodestr))
  else
    match Myself.toxstring (some cfg) cfg.Myself with
    | .fatal => .fatal
    | .panics => .panics
    | .returns x =>
      match Node.Talk net cfg (some n) ("/join/".toList ++ x) true with
      | .fatal => .fatal
      | .panics => .panics
      | .returns (_, some err) => .returns (none, some err)
      | .returns (res, none) =>
        match res with
        | [] => .returns (none, some .illegalResponse)
        | [r0] =>
          if r0 ≠ "WELCOME".toList then .returns (none, some .notWelcomed)
          else .returns (none, none)
        | r0 :: r1 :: _ =>
          match newNode (some cfg) r1 with
          | .fatal => .fatal
          | .panics => .panics
          | .returns (_, some err) => .returns (none, some err)
          | .returns (nn, none) =>
            if r0 ≠ "WELCOME".toList then .returns (nn, some .notWelcomed)
            else .returns (nn, none)

/-- `Node.getNode`. -/
def Node.getNode (net : Net) (cfg : NodeConfig) (n : Node) : Outcome NodeResult :=
  match Node.Talk net cfg (some n) "/node".toList false with
  | .fatal => .fatal
  | .panics => .panics
  | .returns (_, some _) => .returns (none, some (.nodeError n.Nodestr))
  | .returns (res, none) =>
    match res[0]? with
    | none => .panics
    | some r0 => newNode (some cfg) r0

/-- `Node.bye`.  `res[0]` is read only when `len(res) > 0` holds. -/
def Node.bye (net : Net) (cfg : NodeConfig) (n : Node) : Outcome Bool :=
  match Myself.Nodestr (some cfg) cfg.Myself with
  | .fatal => .fatal
  | .panics => .panics
  | .returns x =>
    match Node.Talk net cfg (some n) ("/bye/".toList ++ x) true with
    | .fatal => .fatal
    | .panics => .panics
    | .returns (_, some _) => .returns false
    | .returns (res, none) =>
      if res.length > 0 then
        match res[0]? with
        | none => .panics
        | some r0 => .returns (r0 = "BYEBYE".toList)
      else
        .returns false

/-! ## `Slice` -/

/-- `Slice`: a slice of nodes. -/
abbrev Slice := List Node

/-- `Slice.Len`. -/
def Slice.Len (ns : Slice) : Nat := ns.length

/-- `Slice.getNodestrSlice`. -/
def Slice.getNodestrSlice (ns : Slice) : List Str := ns.map Node.Nodestr

/-- The loop of `Slice.uniq`: `m` holds the keys of the map, the nodestrs seen
so far, and `ret` is the slice built so far. -/
def Slice.uniqLoop (m : List Str) (ret : Slice) : Slice → Slice
  | [] => ret
  | n :: rest =>
    if n.Nodestr ∈ m then Slice.uniqLoop m ret rest
    else Slice.uniqLoop (n.Nodestr :: m) (ret ++ [n]) rest

/-- `Slice.uniq`. -/
def Slice.uniq (ns : Slice) : Slice := Slice.uniqLoop [] [] ns

/-- `Slice.Extend`. -/
def Slice.Extend (ns a : Slice) : Slice := ns ++ a

/-! ## The relay task of `Myself.TryRelay` -/

/-- The assignment `m.relayServer = n` of `TryRelay`: a tunnel is open. -/
def Myself.attachRelay (m : Myself) (n : Node) : Myself := { m with relayServer := some n }

/-- The assignment `m.relayServer = nil` of `TryRelay`: the tunnel is closed. -/
def Myself.detachRelay (m : Myself) : Myself := { m with relayServer := none }

/-- What the relay task does, in the order it does it.  A node is named by
its address `p` in the peer set. -/
inductive RelayEvent where
  /-- `nodes := manager.Random(nil, 0)` -/
  | sample (nodes : List Nat)
  /-- `relay.HandleClient(url, origin, ...)` is called for the node `p` -/
  | attempt (p : Nat) (url origin : Str)
  /-- the call failed: `n.cannotRelay = true` -/
  | failed (p : Nat)
  /-- the call succeeded: `m.relayServer = n` -/
  | attach (p : Nat)
  /-- `<-closed` returned: `m.relayServer = nil` -/
  | detach (p : Nat)
  /-- `time.Sleep(10 * time.Minute)` -/
  | sleep
deriving DecidableEq, Repr

/-- The collaborators of the relay task: the sample `manager.Random` returns in
each pass (a slice of pointers, here addresses), whether the tunnel-open
attempt number `k` succeeds (`relay.HandleClient` returns no error), and whether
the tunnel opened by attempt `k` ever reports its closure on `closed`. -/
structure RelayEnv where
  Random : Nat → List Nat
  HandleClient : Nat → Str → Str → Bool
  Closes : Nat → Bool

/-- The memory the relay task works on: `Myself`, the nodes of the peer set by
address, and the number of tunnel-open attempts made so far. -/
structure RelayState where
  myself : Myself
  peers : Nat → Node
  clock : Nat

/-- A stretch of the relay task: the events in order, the state reached, the
variable `success`, and whether the task is parked for ever on `<-closed`. -/
structure RelayRun where
  events : List RelayEvent
  state : RelayState
  success : Bool
  blocked : Bool

/-- The origin offered to the relay: `"http://" + m.ip`. -/
def relayOrigin (m : Myself) : Str := "http://".toList ++ m.ip

/-- The address of the relay endpoint of a node:
`"ws://" + n.Nodestr + "/request_relay/"`. -/
def relayURL (n : Node) : Str := "ws://".toList ++ n.Nodestr ++ "/request_relay/".toList

/-- The state after a failed attempt on the node at `p`: `n.cannotRelay = true`. -/
def RelayState.afterFail (st : RelayState) (p : Nat) : RelayState :=
  { st with
    clock := st.clock + 1,
    peers := Function.update st.peers p { st.peers p with cannotRelay := true } }

/-- The state after the tunnel to the node at `p` is open: `m.relayServer = n`. -/
def RelayState.afterOpen (st : RelayState) (p : Nat) : RelayState :=
  { st with clock := st.clock + 1, myself := st.myself.attachRelay (st.peers p) }

/-- The state after the tunnel has reported its closure: `m.relayServer = nil`. -/
def RelayState.afterClose (st : RelayState) : RelayState :=
  { st with myself := st.myself.detachRelay }

/-- The inner loop `for _, n := range nodes` of `TryRelay`, from the current
value of `success`. -/
def rangeNodes (env : RelayEnv) : List Nat → Bool → RelayState → RelayRun
  | [], success, st => { events := [], state := st, success := success, blocked := false }
  | p :: rest, success, st =>
    if (st.peers p).cannotRelay then
      rangeNodes env rest success st
    else
      let origin := relayOrigin st.myself
      let url := relayURL (st.peers p)
      if env.HandleClient st.clock url origin then
        if env.Closes st.clock then
          let r := rangeNodes env rest true (st.afterOpen p).afterClose
          { r with events := .attempt p url origin :: .attach p :: .detach p :: r.events }
        else
          { events := [.attempt p url origin, .attach p], state := st.afterOpen p,
            success := true, blocked := true }
      else
        let r := rangeNodes env rest success (st.afterFail p)
        { r with events := .attempt p url origin :: .failed p :: r.events }

/-- One pass of the outer loop of `TryRelay`: a sample is drawn, the inner loop
runs from `success := false`, and the task sleeps when `success` is still
false. -/
def relayPass (env : RelayEnv) (pass : Nat) (st : RelayState) : RelayRun :=
  let nodes := env.Random pass
  let r := rangeNodes env nodes false st
  if r.blocked then
    { r with events := .sample nodes :: r.events }
  else if !r.success then
    { r with events := .sample nodes :: r.events ++ [.sleep] }
  else
    { r with events := .sample nodes :: r.events }

/-- The task of `TryRelay`, observed for a number of passes of its endless
loop, from pass number `pass` on. -/
def TryRelay (env : RelayEnv) : Nat → Nat → RelayState → RelayRun
  | 0, _, st => { events := [], state := st, success := false, blocked := false }
  | k + 1, pass, st =>
    let r := relayPass env pass st
    if r.blocked then r
    else
      let r2 := TryRelay env k (pass + 1) r.state
      { r2 with events := r.events ++ r2.events }

/-- The operations that write the state of `Myself`. -/
inductive MyselfOp where
  | setPort0 (port0 : Bool)
  | setIP (ip : Str)
  | attach (n : Node)
  | detach
deriving DecidableEq, Repr

/-- The effect of one operation on `Myself`. -/
def Myself.apply (net : Net) (m : Myself) : MyselfOp → Myself
  | .setPort0 b => m.setPort0 b
  | .setIP ip => m.setIP net ip
  | .attach n => m.attachRelay n
  | .detach => m.detachRelay

/-- The state after a sequence of operations. -/
def Myself.run (net : Net) (m : Myself) (ops : List MyselfOp) : Myself :=
  ops.foldl (Myself.apply net) m

/-! ## `gou/mch_keylib.go`: the table of stamps and datfile names -/

/-- The value an `int64` holds after an arithmetic result `x`: Go wraps around
on overflow. -/
def wrapInt64 (x : Int) : Int := (x + 2 ^ 63) % 2 ^ 64 - 2 ^ 63

/-- The value of a decimal digit. -/
def digitVal (c : Char) : Nat := c.toNat - 48

/-- The number a non-empty text of decimal digits denotes. -/
def parseDigits (s : Str) : Option Nat :=
  if s ≠ [] ∧ s.all Char.isDigit = true then
    some (s.foldl (fun a c => 10 * a + digitVal c) 0)
  else none

/-- `strconv.ParseInt(s, 10, 64)`: an optional sign and decimal digits, the
value being in the range of `int64`; `none` is a syntax or range error. -/
def ParseInt (s : Str) : Option Int :=
  match s with
  | '-' :: r =>
    match parseDigits r with
    | some n => if n ≤ 2 ^ 63 then some (-(n : Int)) else none
    | none => none
  | '+' :: r =>
    match parseDigits r with
    | some n => if n < 2 ^ 63 then some (n : Int) else none
    | none => none
  | r =>
    match parseDigits r with
    | some n => if n < 2 ^ 63 then some (n : Int) else none
    | none => none

/-- The errors of `getDatkey` and `getFilekey`. -/
inductive KeylibError where
  /-- `errors.New(filekey + " not found")`, `fmt.Errorf("%s not found", datkey)` -/
  | notFound (key : Str)
  /-- the error of `strconv.ParseInt` -/
  | parse (text : Str)
deriving DecidableEq, Repr

/-- What `setFromCache` reads of a `*cache`, a type declared outside these
sources: the field `Datfile`, the result of `Len()`, the field `RecentStamp`,
and the stamp of the record `get(keys()[0], nil)` (`none` when that record is
nil). -/
structure cache where
  Datfile : Str
  Len : Nat
  RecentStamp : Int
  firstRecord : Option Int
deriving DecidableEq, Repr

/-- `DatakeyTable`: the two maps, a key that is absent being `none`. -/
structure DatakeyTable where
  file : Str
  datakey2filekey : Int → Option Str
  filekey2datkey : Str → Option Int

/-- `newDatakeyTable`. -/
def newDatakeyTable (file : Str) : DatakeyTable :=
  { file := file, datakey2filekey := fun _ => none, filekey2datkey := fun _ => none }

/-- `DatakeyTable.setEntry`. -/
def DatakeyTable.setEntry (d : DatakeyTable) (stamp : Int) (filekey : Str) : DatakeyTable :=
  { d with
    datakey2filekey := Function.update d.datakey2filekey stamp (some filekey),
    filekey2datkey := Function.update d.filekey2datkey filekey (some stamp) }

/-- The first stamp `setFromCache` computes for a cache, `now` being
`time.Now().Unix()`. -/
def firstStampOf (now : Int) (ca : cache) : Int :=
  let firstStamp : Int :=
    if ca.Len = 0 then ca.RecentStamp
    else
      match ca.firstRecord with
      | some stamp => stamp
      | none => 0
  if firstStamp = 0 then now - 24 * 60 * 60 else firstStamp

/-- The loop `for { if !exist { break }; firstStamp++ }` of `setFromCache`, run
for at most `fuel` turns: `none` when it is still running then. -/
def nextFreeStamp (datakey2filekey : Int → Option Str) : Nat → Int → Option Int
  | 0, _ => none
  | fuel + 1, firstStamp =>
    if (datakey2filekey firstStamp).isSome then
      nextFreeStamp datakey2filekey fuel (wrapInt64 (firstStamp + 1))
    else some firstStamp

/-- `DatakeyTable.setFromCache`, its loop run for at most `fuel` turns. -/
def DatakeyTable.setFromCache (fuel : Nat) (now : Int) (d : DatakeyTable) (ca : cache) :
    Option DatakeyTable :=
  if (d.filekey2datkey ca.Datfile).isSome then some d
  else
    match nextFreeStamp d.datakey2filekey fuel (firstStampOf now ca) with
    | none => none
    | some firstStamp => some (d.setEntry firstStamp ca.Datfile)

/-- `DatakeyTable.getDatkey`: the table afterwards and the result pair;
`loadCache` stands for `newCache(filekey)` followed by `load()`, and the write
to the file by `save` is left out. -/
def DatakeyTable.getDatkey (fuel : Nat) (now : Int) (loadCache : Str → cache)
    (d : DatakeyTable) (filekey : Str) : Option (DatakeyTable × Int × Option KeylibError) :=
  match d.filekey2datkey filekey with
  | some v => some (d, v, none)
  | none =>
    match d.setFromCache fuel now (loadCache filekey) with
    | none => none
    | some d2 =>
      match d2.filekey2datkey filekey with
      | some v => some (d2, v, none)
      | none => some (d2, -1, some (.notFound filekey))

/-- `DatakeyTable.getFilekey`. -/
def DatakeyTable.getFilekey (d : DatakeyTable) (datkey : Str) : Str × Option KeylibError :=
  match ParseInt datkey with
  | none => ([], some (.parse datkey))
  | some nDatkey =>
    match d.datakey2filekey nDatkey with
    | some v => (v, none)
    | none => ([], some (.notFound datkey))

/-! ## `cfg/config.go`: the ranges of the section `Application Thread` -/

/-- The values of the keys of the section `Application Thread` in the ini
file, `none` for a key that is missing or is not a number. -/
structure ThreadIni where
  save_record : Option Int
  save_size : Option Int
  get_range : Option Int
  sync_range : Option Int
  save_removed : Option Int

/-- The variables `initVariables` sets from that section. -/
structure ThreadVars where
  SaveRecord : Int
  SaveSize : Int
  GetRange : Int
  SyncRange : Int
  SaveRemoved : Int
deriving DecidableEq, Repr

/-- `getInt64Value` and `getIntValue`: the value of the key, or the default. -/
def getInt64Value (v : Option Int) (vdefault : Int) : Int := v.getD vdefault

/-- The end of `initVariables`, from `ctype := "Application Thread"` on; `now k`
is the result of the call number `k` of `time.Now().Unix()`. -/
def initVariables (now : Nat → Int) (i : ThreadIni) : Outcome ThreadVars :=
  let SaveRecord := getInt64Value i.save_record 0
  let SaveSize := getInt64Value i.save_size 1
  let GetRange := getInt64Value i.get_range (31 * 24 * 60 * 60)
  if GetRange > now 0 then .fatal
  else
    let SyncRange := getInt64Value i.sync_range (10 * 24 * 60 * 60)
    if SyncRange > now 1 then .fatal
    else
      let SaveRemoved := getInt64Value i.save_removed (50 * 24 * 60 * 60)
      if SaveRemoved > now 2 then .fatal
      else
        let SaveRecord := if SyncRange = 0 then 0 else SaveRecord
        let SyncRange :=
          if SaveRemoved ≠ 0 ∧ SaveRemoved ≤ SyncRange then wrapInt64 (SyncRange + 1)
          else SyncRange
        .returns { SaveRecord := SaveRecord, SaveSize := SaveSize, GetRange := GetRange,
                   SyncRange := SyncRange, SaveRemoved := SaveRemoved }

/-- What `os.Stat` returns for a path: the `FileInfo`, of which `init` reads
`IsDir()` only (`none` is the nil `FileInfo`), and whether the error is non-nil. -/
structure StatResult where
  info : Option Bool
  err : Bool
deriving DecidableEq, Repr

/-- The surroundings of `init`: the home directory of `user.Current()` (`none`
when it reports an error), `os.Stat`, the keys of the section
`Application Thread` that a file holds (`none` when `i.Append` fails on it), and
the clock. -/
structure ConfigEnv where
  home : Option Str
  Stat : Str → StatResult
  Load : Str → Option ThreadIni
  now : Nat → Int

/-- `ini.Empty()`: no key is set. -/
def emptyIni : ThreadIni :=
  { save_record := none, save_size := none, get_range := none, sync_range := none,
    save_removed := none }

/-- `i.Append(f)` on a file that loads: a key of the file overrides the one
read before. -/
def appendIni (i c : ThreadIni) : ThreadIni :=
  { save_record := c.save_record.orElse (fun _ => i.save_record),
    save_size := c.save_size.orElse (fun _ => i.save_size),
    get_range := c.get_range.orElse (fun _ => i.get_range),
    sync_range := c.sync_range.orElse (fun _ => i.sync_range),
    save_removed := c.save_removed.orElse (fun _ => i.save_removed) }

/-- The list `files` of `init`. -/
def configFiles (home : Option Str) : List Str :=
  ["file/saku.ini".toList, "/usr/local/etc/saku/saku.ini".toList, "/etc/saku/saku.ini".toList] ++
    (match home with
     | some h => [h ++ "/.saku/saku.ini".toList]
     | none => [])

/-- The loop `for _, f := range files` of `init`.  The test is
`err != nil && !fs.IsDir()`: with no error the file is passed over, and with an
error `fs.IsDir()` is called, which panics on the nil `FileInfo`. -/
def loadFiles (env : ConfigEnv) : List Str → ThreadIni → Outcome ThreadIni
  | [], i => .returns i
  | f :: rest, i =>
    if (env.Stat f).err then
      match (env.Stat f).info with
      | none => .panics
      | some isDir =>
        if !isDir then
          match env.Load f with
          | none => .fatal
          | some c => loadFiles env rest (appendIni i c)
        else loadFiles env rest i
    else loadFiles env rest i

/-- `init`: the files are gone through and `initVariables` is called on the
ini data gathered. -/
def init (env : ConfigEnv) : Outcome ThreadVars :=
  match loadFiles env (configFiles env.home) emptyIni with
  | .returns i => initVariables env.now i
  | .fatal => .fatal
  | .panics => .panics

/-! ## Predicates used to state the properties -/

/-- The text contains a decimal digit immediately followed by `/`. -/
def hasDigitSlash (s : Str) : Bool :=
  match s with
  | [] => false
  | c :: rest => (c.isDigit && hasSlashPrefix rest) || hasDigitSlash rest

/-- A configuration used for the concrete examples: port 8000, path
`/server.cgi`, empty allow and deny lists. -/
def exampleCfg : NodeConfig :=
  { Myself := NewMyself 8000 "/server.cgi".toList [],
    NodeAllow := fun _ => false,
    NodeDeny := fun _ => false,
    Version := "0.1".toList }

/-- A peer used for the concrete examples. -/
def examplePeer : Node :=
  { Nodestr := "peer.example:8000/server.cgi".toList, cannotRelay := false }

/-- A network in which every request is answered with the two lines `WELCOME`
and `host:9000/server.cgi`. -/
def welcomeNet : Net :=
  { httpGet := fun _ _ =>
      .returns (["WELCOME".toList, "host:9000/server.cgi".toList], none),
    ParseIP := fun _ => false }

/-- A network in which every request is answered with the two lines `PONG` and
`203.0.113.5`, the one address `ParseIP` is asked about. -/
def pongNet : Net :=
  { httpGet := fun _ _ => .returns (["PONG".toList, "203.0.113.5".toList], none),
    ParseIP := fun s => s = "203.0.113.5".toList }

/-- A network in which every request is answered with an empty body: no line
and no error. -/
def emptyBodyNet : Net :=
  { httpGet := fun _ _ => .returns ([], none),
    ParseIP := fun _ => false }

/-- A network in which every request is answered with the one line `BYEBYE`. -/
def byeNet : Net :=
  { httpGet := fun _ _ => .returns (["BYEBYE".toList], none),
    ParseIP := fun _ => false }

/-- The local node behind NAT with a tunnel to `examplePeer`. -/
def relayedMyself : Myself :=
  { ip := "203.0.113.5".toList, Port := 8000, Path := "/server.cgi".toList,
    ServerName := "me.example".toList, port0 := true, relayServer := some examplePeer }

/-- The text has no white space at its head and none at its end. -/
def noOuterSpace (s : Str) : Bool :=
  s.head?.all (fun c => !isSpace c) && s.getLast?.all (fun c => !isSpace c)

/-- An operation respects the relay discipline in the state `m`: a relay is
attached only while `port0` is set, and `port0` is cleared only while no relay
is attached. -/
def opAllowed (m : Myself) : MyselfOp → Bool
  | .attach _ => m.port0
  | .setPort0 false => m.relayServer.isNone
  | _ => true

/-- Every operation of the sequence respects the relay discipline in the state
it is applied to. -/
def guardedRun (net : Net) (m : Myself) : List MyselfOp → Bool
  | [] => true
  | op :: ops => opAllowed m op && guardedRun net (m.apply net op) ops

/-- Every tunnel-open attempt in `evs` is made on a node whose flag, `flag`
at the start, is not set and has not been set by a failure earlier in `evs`. -/
def attemptsRespectFlags (flag : Nat → Bool) (evs : List RelayEvent) : Prop :=
  ∀ a p url origin b, evs = a ++ .attempt p url origin :: b →
    flag p = false ∧ RelayEvent.failed p ∉ a

/-- Collaborators for the concrete examples: every sample is the two nodes at
0 and 1, the first attempt opens a tunnel, the later ones fail, and an open
tunnel closes in the end. -/
def exampleRelayEnv : RelayEnv :=
  { Random := fun _ => [0, 1],
    HandleClient := fun k _ _ => k == 0,
    Closes := fun _ => true }

/-- The start of the relay task in the concrete examples: a fresh `Myself` and
peers none of which is marked. -/
def exampleRelayState : RelayState :=
  { myself := NewMyself 8000 "/server.cgi".toList [],
    peers := fun i => { Nodestr := 'p' :: Itoa i ++ ":8000/server.cgi".toList,
                        cannotRelay := false },
    clock := 0 }

/-- A table for the concrete examples: the stamps 7 and 8 are taken, by the
datfiles `a` and `b`. -/
def exampleTable : DatakeyTable :=
  ((newDatakeyTable "datakey.txt".toList).setEntry 7 "a".toList).setEntry 8 "b".toList

/-- A cache without records, of datfile `c`, whose recent stamp is 7. -/
def exampleCache : cache :=
  { Datfile := "c".toList, Len := 0, RecentStamp := 7, firstRecord := none }

/-- A table in which the largest stamp of `int64` is taken. -/
def topTable : DatakeyTable :=
  (newDatakeyTable "datakey.txt".toList).setEntry (2 ^ 63 - 1) "a".toList

/-- A cache without records, of datfile `b`, whose recent stamp is the largest
stamp of `int64`. -/
def topCache : cache :=
  { Datfile := "b".toList, Len := 0, RecentStamp := 2 ^ 63 - 1, firstRecord := none }

/-- An ini file that sets `sync_range = 10` and `save_removed = 5`. -/
def exampleIni : ThreadIni :=
  { save_record := none, save_size := none, get_range := none,
    sync_range := some 10, save_removed := some 5 }

/-- Surroundings for the concrete examples: the four ini files exist, each
sets `sync_range = 10` and `save_removed = 5`, and the clock shows 1446595200. -/
def exampleConfigEnv : ConfigEnv :=
  { home := some "/home/gou".toList,
    Stat := fun _ => { info := some false, err := false },
    Load := fun _ => some exampleIni,
    now := fun _ => 1446595200 }

/-! ## Lemmas on the library functions -/

theorem hasSlashPrefix_iff (s : Str) : hasSlashPrefix s = true ↔ ∃ t, s = '/' :: t := by
  unfold hasSlashPrefix
  split
  · simp
  · rename_i h
    simp only [Bool.false_eq_true, false_iff, not_exists]
    intro t ht
    exact h t ht

theorem hasDigitSlash_iff (s : Str) :
    hasDigitSlash s = true ↔
      ∃ pre d post, d.isDigit = true ∧ s = pre ++ d :: '/' :: post := by
  induction s with
  | nil => simp [hasDigitSlash]
  | cons c rest ih =>
    simp only [hasDigitSlash, Bool.or_eq_true, Bool.and_eq_true, ih, hasSlashPrefix_iff]
    constructor
    · rintro (⟨hc, t, rfl⟩ | ⟨pre, d, post, hd, rfl⟩)
      · exact ⟨[], c, t, hc, rfl⟩
      · exact ⟨c :: pre, d, post, hd, rfl⟩
    · rintro ⟨pre, d, post, hd, h⟩
      cases pre with
      | nil =>
        simp only [List.nil_append, List.cons.injEq] at h
        obtain ⟨rfl, rfl⟩ := h
        exact Or.inl ⟨hd, _, rfl⟩
      | cons a pre =>
        simp only [List.cons_append, List.cons.injEq] at h
        obtain ⟨rfl, rfl⟩ := h
        exact Or.inr ⟨pre, d, post, hd, rfl⟩

theorem Replace_append (s t : Str) (a b : Char) :
    Replace (s ++ t) a b = Replace s a b ++ Replace t a b := by
  simp [Replace]

theorem Replace_cons (c : Char) (s : Str) (a b : Char) :
    Replace (c :: s) a b = (if c = a then b else c) :: Replace s a b := by
  simp [Replace]

theorem Replace_eq_self (s : Str) (a b : Char) (h : ∀ c ∈ s, c ≠ a) : Replace s a b = s := by
  induction s with
  | nil => rfl
  | cons c s ih =>
    rw [Replace_cons, ih (fun x hx => h x (List.mem_cons_of_mem _ hx)),
      if_neg (h c (List.mem_cons_self _ _))]

theorem not_mem_Replace (s : Str) (a b : Char) (hab : a ≠ b) : a ∉ Replace s a b := by
  intro h
  simp only [Replace, List.mem_map] at h
  obtain ⟨c, -, hc⟩ := h
  by_cases hca : c = a
  · rw [if_pos hca] at hc
    exact hab hc.symm
  · rw [if_neg hca] at hc
    exact hca hc

theorem mem_Replace_ne (s : Str) (a b x : Char) (hx : x ≠ b) (h : x ∈ Replace s a b) :
    x ∈ s := by
  simp only [Replace, List.mem_map] at h
  obtain ⟨c, hc, hcx⟩ := h
  by_cases hca : c = a
  · rw [if_pos hca] at hcx
    exact absurd hcx.symm hx
  · rw [if_neg hca] at hcx
    exact hcx ▸ hc

theorem Replace_Replace_cancel (s : Str) (a b : Char) (h : b ∉ s) :
    Replace (Replace s a b) b a = s := by
  induction s with
  | nil => rfl
  | cons c s ih =>
    have hc : c ≠ b := fun e => h (e ▸ List.mem_cons_self _ _)
    have hs : b ∉ s := fun e => h (List.mem_cons_of_mem _ e)
    rw [Replace_cons, Replace_cons, ih hs]
    by_cases hca : c = a
    · simp [hca]
    · simp [hca, hc]

theorem dropWhile_append_cons (p : Char → Bool) (x : Str) (c : Char) (b : Str)
    (hc : p c = false) : (x ++ c :: b).dropWhile p = x.dropWhile p ++ c :: b := by
  induction x with
  | nil => simp [List.dropWhile, hc]
  | cons a x ih =>
    by_cases ha : p a = true
    · simp [List.dropWhile, ha, ih]
    · simp [List.dropWhile, ha]

theorem dropWhile_eq_self (p : Char → Bool) (s : Str)
    (h : ∀ c, s.head? = some c → p c = false) : s.dropWhile p = s := by
  cases s with
  | nil => rfl
  | cons a s => simp [List.dropWhile, h a rfl]

theorem dropWhile_all (p : Char → Bool) (s : Str) (h : ∀ c ∈ s, p c = true) :
    s.dropWhile p = [] := by
  induction s with
  | nil => rfl
  | cons a s ih =>
    simp [List.dropWhile, h a (List.mem_cons_self _ _),
      ih (fun c hc => h c (List.mem_cons_of_mem _ hc))]

theorem dropWhile_suffix (p : Char → Bool) (s : Str) : ∃ a, s = a ++ s.dropWhile p := by
  exact ⟨s.takeWhile p, (List.takeWhile_append_dropWhile p s).symm⟩

/-- The trimmed text is a contiguous part of the text. -/
theorem TrimSpace_infix (s : Str) : ∃ a b, s = a ++ TrimSpace s ++ b := by
  obtain ⟨a, ha⟩ := dropWhile_suffix isSpace s
  obtain ⟨b, hb⟩ := dropWhile_suffix isSpace (s.dropWhile isSpace).reverse
  refine ⟨a, b.reverse, ?_⟩
  have h2 : s.dropWhile isSpace = TrimSpace s ++ b.reverse := by
    have := congrArg List.reverse hb
    simpa [TrimSpace] using this
  rw [List.append_assoc, ← h2]
  exact ha

theorem TrimSpace_eq_self (s : Str) (h1 : ∀ c, s.head? = some c → isSpace c = false)
    (h2 : ∀ c, s.getLast? = some c → isSpace c = false) : TrimSpace s = s := by
  unfold TrimSpace
  rw [dropWhile_eq_self isSpace s h1, dropWhile_eq_self isSpace s.reverse, List.reverse_reverse]
  intro c hc
  rw [List.head?_reverse] at hc
  exact h2 c hc

theorem TrimSpace_of_all_space (s : Str) (h : ∀ c ∈ s, isSpace c = true) : TrimSpace s = [] := by
  simp [TrimSpace, dropWhile_all isSpace s h]

/-- Trimming a text that has a non-blank character `c` in it keeps what stands
before `c` from the first non-blank on, and what stands after it up to the last
non-blank. -/
theorem TrimSpace_append_cons (x : Str) (c : Char) (b : Str) (hc : isSpace c = false) :
    TrimSpace (x ++ c :: b) =
      x.dropWhile isSpace ++ c :: (b.reverse.dropWhile isSpace).reverse := by
  unfold TrimSpace
  rw [dropWhile_append_cons isSpace x c b hc]
  have : (x.dropWhile isSpace ++ c :: b).reverse
      = b.reverse ++ c :: (x.dropWhile isSpace).reverse := by simp
  rw [this, dropWhile_append_cons isSpace _ c _ hc]
  simp

/-! ## Decimal digits -/

theorem digitChar_isDigit : ∀ k, k < 10 → (Nat.digitChar k).isDigit = true := by
  decide

theorem toDigitsCore_isDigit (fuel : Nat) : ∀ (n : Nat) (ds : Str),
    (∀ c ∈ ds, c.isDigit = true) → ∀ c ∈ Nat.toDigitsCore 10 fuel n ds, c.isDigit = true := by
  induction fuel with
  | zero => intro n ds h; simpa [Nat.toDigitsCore] using h
  | succ fuel ih =>
    intro n ds h
    have hd : ∀ c ∈ Nat.digitChar (n % 10) :: ds, c.isDigit = true := by
      intro c hc
      rcases List.mem_cons.mp hc with rfl | hc
      · exact digitChar_isDigit _ (Nat.mod_lt _ (by decide))
      · exact h c hc
    simp only [Nat.toDigitsCore]
    split
    · exact hd
    · exact ih _ _ hd

theorem toDigitsCore_ne_nil (fuel : Nat) : ∀ (n : Nat) (ds : Str),
    ds ≠ [] → Nat.toDigitsCore 10 fuel n ds ≠ [] := by
  induction fuel with
  | zero => intro n ds h; simpa [Nat.toDigitsCore] using h
  | succ fuel ih =>
    intro n ds _
    simp only [Nat.toDigitsCore]
    split
    · simp
    · exact ih _ _ (by simp)

theorem toDigits_isDigit (n : Nat) : ∀ c ∈ Nat.toDigits 10 n, c.isDigit = true :=
  toDigitsCore_isDigit (n + 1) n [] (by simp)

theorem toDigits_ne_nil (n : Nat) : Nat.toDigits 10 n ≠ [] := by
  unfold Nat.toDigits
  simp only [Nat.toDigitsCore]
  split
  · simp
  · exact toDigitsCore_ne_nil _ _ _ (by simp)

theorem Itoa_isDigit (i : Int) (h : 0 ≤ i) : ∀ c ∈ Itoa i, c.isDigit = true := by
  cases i with
  | ofNat n => exact toDigits_isDigit n
  | negSucc n => exact absurd h (by simp)

theorem Itoa_ne_nil (i : Int) : Itoa i ≠ [] := by
  cases i with
  | ofNat n => exact toDigits_ne_nil n
  | negSucc n => simp [Itoa]

theorem isDigit_ne_of_not_isDigit (c x : Char) (hc : c.isDigit = true)
    (hx : x.isDigit = false) : c ≠ x := by
  rintro rfl
  rw [hc] at hx
  exact Bool.noConfusion hx

theorem isSpace_false_ne_blank (c : Char) (h : isSpace c = false) : c ≠ ' ' := by
  rintro rfl
  exact absurd h (by decide)

/-! ## What the pattern accepts -/

theorem pathChar_iff (c : Char) : pathChar c = true ↔ c ≠ ':' ∧ c ≠ ' ' := by
  simp [pathChar]

theorem matchPath_iff (p : Str) :
    matchPath p = true ↔ p ≠ [] ∧ ∀ c ∈ p, pathChar c = true := by
  cases p with
  | nil => simp [matchPath]
  | cons c rest => simp [matchPath]

theorem dropWhile_digits_slash (d : Str) (p : Str) (hd : ∀ c ∈ d, c.isDigit = true) :
    (d ++ '/' :: p).dropWhile Char.isDigit = '/' :: p := by
  rw [dropWhile_append_cons Char.isDigit d '/' p (by decide),
    dropWhile_all Char.isDigit d hd, List.nil_append]

/-- The anchored matcher accepts exactly a non-empty run of digits, a `/` and
a non-empty tail of path characters. -/
theorem matchHere_iff (cs : Str) :
    matchHere cs = true ↔
      ∃ d p, cs = d ++ '/' :: p ∧ d ≠ [] ∧ (∀ c ∈ d, c.isDigit = true) ∧
        matchPath p = true := by
  constructor
  · intro h
    cases cs with
    | nil => simp [matchHere] at h
    | cons c rest =>
      simp only [matchHere, Bool.and_eq_true] at h
      obtain ⟨hc, h⟩ := h
      split at h
      · rename_i p hp
        refine ⟨c :: rest.takeWhile Char.isDigit, p, ?_, by simp, ?_, h⟩
        · rw [List.cons_append, ← hp, List.takeWhile_append_dropWhile]
        · intro x hx
          rcases List.mem_cons.mp hx with rfl | hx
          · exact hc
          · exact (List.mem_takeWhile_imp hx)
      · exact absurd h (by simp)
  · rintro ⟨d, p, rfl, hd, hdig, hp⟩
    cases d with
    | nil => exact absurd rfl hd
    | cons c d =>
      simp only [List.cons_append, matchHere, Bool.and_eq_true]
      refine ⟨hdig c (List.mem_cons_self _ _), ?_⟩
      rw [dropWhile_digits_slash d p (fun x hx => hdig x (List.mem_cons_of_mem _ hx))]
      exact hp

/-- The semantics of the pattern `\d+/[^: ]+$` searched in a text: some
non-empty run of digits is followed by `/` and by a non-empty tail, up to the
end of the text, that has no colon and no blank. -/
theorem matchString_iff (cs : Str) :
    matchString cs = true ↔
      ∃ pre d p, cs = pre ++ d ++ '/' :: p ∧ d ≠ [] ∧ (∀ c ∈ d, c.isDigit = true) ∧
        p ≠ [] ∧ ∀ c ∈ p, c ≠ ':' ∧ c ≠ ' ' := by
  induction cs with
  | nil => simp [matchString]
  | cons a rest ih =>
    simp only [matchString, Bool.or_eq_true, ih, matchHere_iff, matchPath_iff, pathChar_iff]
    constructor
    · rintro (⟨d, p, h, hd, hdig, hp⟩ | ⟨pre, d, p, rfl, hd, hdig, hp⟩)
      · exact ⟨[], d, p, by simpa using h, hd, hdig, hp⟩
      · exact ⟨a :: pre, d, p, by simp, hd, hdig, hp⟩
    · rintro ⟨pre, d, p, h, hd, hdig, hp⟩
      cases pre with
      | nil => exact Or.inl ⟨d, p, by simpa using h, hd, hdig, hp⟩
      | cons b pre =>
        simp only [List.cons_append, List.cons.injEq] at h
        obtain ⟨rfl, rfl⟩ := h
        exact Or.inr ⟨pre, d, p, by simp, hd, hdig, hp⟩

/-- A text the pattern accepts has a digit immediately followed by `/`, and
after them a non-empty tail without colon and blank. -/
theorem matchString_digit_slash (cs : Str) (h : matchString cs = true) :
    ∃ q d p, d.isDigit = true ∧ cs = q ++ d :: '/' :: p ∧ p ≠ [] ∧
      ∀ c ∈ p, c ≠ ':' ∧ c ≠ ' ' := by
  obtain ⟨pre, ds, p, rfl, hd, hdig, hp, hpc⟩ := (matchString_iff cs).mp h
  refine ⟨pre ++ ds.dropLast, ds.getLast hd, p, hdig _ (List.getLast_mem hd), ?_, hp, hpc⟩
  conv_lhs => rw [← List.dropLast_append_getLast hd]
  simp

/-! ## `newNode` case by case -/

theorem newNode_empty (cfg : NodeConfig) (s : Str) (h : TrimSpace s = []) :
    newNode (some cfg) s = .returns (none, some .emptyNodestr) := by
  simp [newNode, h]

theorem newNode_bad (cfg : NodeConfig) (s : Str) (h1 : TrimSpace s ≠ [])
    (h2 : matchString (TrimSpace s) = false) :
    newNode (some cfg) s = .returns (none, some (.badFormat (TrimSpace s))) := by
  simp [newNode, h1, h2]

theorem newNode_good (cfg : NodeConfig) (s : Str) (h : matchString (TrimSpace s) = true) :
    newNode (some cfg) s =
      .returns (some { Nodestr := Replace (TrimSpace s) '+' '/', cannotRelay := false },
        none) := by
  have h1 : TrimSpace s ≠ [] := by
    intro e
    rw [e] at h
    simp [matchString] at h
  simp [newNode, h1, h]

theorem newNode_ok_inv (cfg : NodeConfig) (s : Str) (n : Node)
    (h : newNode (some cfg) s = .returns (some n, none)) :
    matchString (TrimSpace s) = true ∧ n.Nodestr = Replace (TrimSpace s) '+' '/' := by
  by_cases h1 : TrimSpace s = []
  · rw [newNode_empty cfg s h1] at h
    simp at h
  · cases h2 : matchString (TrimSpace s) with
    | false =>
      rw [newNode_bad cfg s h1 h2] at h
      simp at h
    | true =>
      rw [newNode_good cfg s h2] at h
      simp only [Outcome.returns.injEq, Prod.mk.injEq, Option.some.injEq, and_true] at h
      exact ⟨rfl, by rw [← h]⟩

/-- With the configuration set, `newNode` returns either a node and no error,
or an error and no node. -/
theorem newNode_some_cases (cfg : NodeConfig) (s : Str) :
    (∃ n, newNode (some cfg) s = .returns (some n, none)) ∨
      (∃ e, newNode (some cfg) s = .returns (none, some e)) := by
  by_cases h1 : TrimSpace s = []
  · exact Or.inr ⟨_, newNode_empty cfg s h1⟩
  · cases h2 : matchString (TrimSpace s) with
    | false => exact Or.inr ⟨_, newNode_bad cfg s h1 h2⟩
    | true => exact Or.inl ⟨_, newNode_good cfg s h2⟩

theorem MakeNode_ok_newNode (cfg : NodeConfig) (n : Node)
    (h : (∃ s, newNode (some cfg) s = .returns (some n, none)) ∨
      (∃ host path port, MakeNode (some cfg) host path port = .returns (some n, none))) :
    ∃ s, newNode (some cfg) s = .returns (some n, none) := by
  rcases h with h | ⟨host, path, port, h⟩
  · exact h
  · exact ⟨_, h⟩

/-- No text with a colon in it matches the pattern when no digit is
immediately followed by `/` after that colon. -/
theorem matchString_colon_false (x b : Str) (hb : hasDigitSlash b = false) :
    matchString (x ++ ':' :: b) = false := by
  cases hm : matchString (x ++ ':' :: b) with
  | false => rfl
  | true =>
    exfalso
    obtain ⟨q, d, p, hd, heq, -, hpc⟩ := matchString_digit_slash _ hm
    have hcol : d ≠ ':' := isDigit_ne_of_not_isDigit d ':' hd (by decide)
    rcases List.append_eq_append_iff.mp heq with ⟨a, -, h2⟩ | ⟨c, -, h2⟩
    · cases a with
      | nil =>
        simp only [List.nil_append, List.cons.injEq] at h2
        exact hcol h2.1.symm
      | cons y a =>
        simp only [List.cons_append, List.cons.injEq] at h2
        have : hasDigitSlash b = true :=
          (hasDigitSlash_iff b).mpr ⟨a, d, p, hd, h2.2⟩
        rw [hb] at this
        exact Bool.noConfusion this
    · cases c with
      | nil =>
        simp only [List.nil_append, List.cons.injEq] at h2
        exact hcol h2.1
      | cons y c =>
        simp only [List.cons_append, List.cons.injEq] at h2
        obtain ⟨-, h3⟩ := h2
        cases c with
        | nil =>
          simp only [List.nil_append, List.cons.injEq] at h3
          exact absurd h3.1 (by decide)
        | cons z c =>
          simp only [List.cons_append, List.cons.injEq] at h3
          have hmem : ':' ∈ p := by
            rw [h3.2]
            simp
          exact (hpc ':' hmem).1 rfl

theorem hasDigitSlash_prefix (b w : Str) (h : hasDigitSlash (b ++ w) = false) :
    hasDigitSlash b = false := by
  cases hb : hasDigitSlash b with
  | false => rfl
  | true =>
    obtain ⟨pre, d, post, hd, rfl⟩ := (hasDigitSlash_iff b).mp hb
    have : hasDigitSlash (pre ++ d :: '/' :: post ++ w) = true :=
      (hasDigitSlash_iff _).mpr ⟨pre, d, post ++ w, hd, by simp⟩
    rw [h] at this
    exact Bool.noConfusion this

theorem hasDigitSlash_rdrop (b : Str) (h : hasDigitSlash b = false) :
    hasDigitSlash (b.reverse.dropWhile isSpace).reverse = false := by
  obtain ⟨w, hw⟩ := dropWhile_suffix isSpace b.reverse
  have hb : b = (b.reverse.dropWhile isSpace).reverse ++ w.reverse := by
    have := congrArg List.reverse hw
    simpa using this
  rw [hb] at h
  exact hasDigitSlash_prefix _ _ h

/-! ## The construction of a `Node` -/

/-- C1, as amended: with `NodeCfg` set, `newNode s` returns a node exactly when
`s` trimmed of its surrounding white space is non-empty and matches the
pattern `\d+/[^: ]+$`, the test being made on the trimmed text before any `+`
is replaced; for every other `s` it returns a format error (empty nodestr or
bad format) and no node. -/
theorem newNode_succeeds_iff (cfg : NodeConfig) (s : Str) :
    ((∃ n, newNode (some cfg) s = .returns (some n, none)) ↔
        (TrimSpace s ≠ [] ∧ matchString (TrimSpace s) = true)) ∧
    ((newNode (some cfg) s = .returns (none, some .emptyNodestr) ∨
        newNode (some cfg) s = .returns (none, some (.badFormat (TrimSpace s)))) ↔
        ¬ (TrimSpace s ≠ [] ∧ matchString (TrimSpace s) = true)) := by
  by_cases h1 : TrimSpace s = []
  · have h := newNode_empty cfg s h1
    refine ⟨⟨?_, fun hh => absurd h1 hh.1⟩, ⟨fun _ hh => hh.1 h1, fun _ => Or.inl h⟩⟩
    rintro ⟨n, hn⟩
    rw [h] at hn
    simp at hn
  · cases h2 : matchString (TrimSpace s) with
    | false =>
      have h := newNode_bad cfg s h1 h2
      refine ⟨⟨?_, fun hh => absurd hh.2 (by simp)⟩, ⟨fun _ hh => by simp at hh, fun _ => Or.inr h⟩⟩
      rintro ⟨n, hn⟩
      rw [h] at hn
      simp at hn
    | true =>
      have h := newNode_good cfg s h2
      refine ⟨⟨fun _ => ⟨h1, rfl⟩, fun _ => ⟨_, h⟩⟩, ⟨?_, fun hh => absurd ⟨h1, rfl⟩ hh⟩⟩
      rw [h]
      simp

/-- C1, the claim as written fails: for `1+a` the trimmed text with `+` replaced
is `1/a`, non-empty and matching the pattern, yet `newNode` returns the
bad-format error, since it tests the pattern on `1+a`. -/
theorem newNode_plus_counterexample :
    (Replace (TrimSpace "1+a".toList) '+' '/' ≠ [] ∧
      matchString (Replace (TrimSpace "1+a".toList) '+' '/') = true) ∧
    newNode (some exampleCfg) "1+a".toList =
      .returns (none, some (.badFormat "1+a".toList)) := by
  decide

/-- C2: for a host without `:`, `+` and white space, a port `≥ 0` and a path
`/` followed by one or more characters none of which is `:`, `+` or white
space, `MakeNode` succeeds with the nodestr `host:port/rest`; and whenever
`newNode s` succeeds, its nodestr is the trimmed `s` with every `+` replaced by
`/`. -/
theorem MakeNode_roundtrip (cfg : NodeConfig) (host rest : Str) (port : Int)
    (hhost : ∀ c ∈ host, c ≠ ':' ∧ c ≠ '+' ∧ isSpace c = false)
    (hport : 0 ≤ port)
    (hne : rest ≠ [])
    (hrest : ∀ c ∈ rest, c ≠ ':' ∧ c ≠ '+' ∧ isSpace c = false) :
    MakeNode (some cfg) host ('/' :: rest) port =
        .returns (some { Nodestr := host ++ ':' :: Itoa port ++ '/' :: rest,
                         cannotRelay := false }, none) ∧
    ∀ (s : Str) (n : Node), newNode (some cfg) s = .returns (some n, none) →
      n.Nodestr = Replace (TrimSpace s) '+' '/' := by
  refine ⟨?_, fun s n h => (newNode_ok_inv cfg s n h).2⟩
  have hj : JoinHostPort host (Itoa port) = host ++ ':' :: Itoa port := by
    unfold JoinHostPort
    rw [if_neg]
    intro hc
    exact (hhost ':' hc).1 rfl
  have hp : Replace ('/' :: rest) '+' '/' = '/' :: rest := by
    apply Replace_eq_self
    intro c hc
    rcases List.mem_cons.mp hc with rfl | hc
    · decide
    · exact (hrest c hc).2.1
  have hplus : ∀ c ∈ host ++ ':' :: Itoa port ++ '/' :: rest, c ≠ '+' := by
    intro c hc
    simp only [List.mem_append, List.mem_cons] at hc
    rcases hc with (hc | rfl | hc) | rfl | hc
    · exact (hhost c hc).2.1
    · decide
    · exact isDigit_ne_of_not_isDigit c '+' (Itoa_isDigit port hport c hc) (by decide)
    · decide
    · exact (hrest c hc).2.1
  have htrim : TrimSpace (host ++ ':' :: Itoa port ++ '/' :: rest)
      = host ++ ':' :: Itoa port ++ '/' :: rest := by
    apply TrimSpace_eq_self
    · intro c hc
      cases host with
      | nil =>
        simp only [List.nil_append, List.cons_append, List.head?_cons, Option.some.injEq] at hc
        subst hc
        decide
      | cons a host =>
        simp only [List.cons_append, List.head?_cons, Option.some.injEq] at hc
        subst hc
        exact (hhost _ (List.mem_cons_self _ _)).2.2
    · intro c hc
      have hlast : (host ++ ':' :: Itoa port ++ '/' :: rest).getLast? = rest.getLast? := by
        rw [List.getLast?_append_of_ne_nil _ (by simp)]
        cases rest with
        | nil => exact absurd rfl hne
        | cons a rest => simp [List.getLast?_cons_cons]
      rw [hlast] at hc
      exact (hrest c (List.mem_of_getLast?_eq_some hc)).2.2
  have hmatch : matchString (TrimSpace (host ++ ':' :: Itoa port ++ '/' :: rest)) = true := by
    rw [htrim]
    exact (matchString_iff _).mpr ⟨host ++ [':'], Itoa port, rest, by simp, Itoa_ne_nil port,
      Itoa_isDigit port hport, hne,
      fun c hc => ⟨(hrest c hc).1, isSpace_false_ne_blank c (hrest c hc).2.2⟩⟩
  unfold MakeNode
  rw [hj, hp, newNode_good cfg _ hmatch, htrim, Replace_eq_self _ _ _ hplus]

/-- C2 at `example.com`, port 8000, path `/server.cgi`. -/
theorem MakeNode_roundtrip_witness :
    (∀ c ∈ "example.com".toList, c ≠ ':' ∧ c ≠ '+' ∧ isSpace c = false) ∧
    (0 : Int) ≤ 8000 ∧
    (∀ c ∈ "server.cgi".toList, c ≠ ':' ∧ c ≠ '+' ∧ isSpace c = false) ∧
    MakeNode (some exampleCfg) "example.com".toList ('/' :: "server.cgi".toList) 8000 =
      .returns (some { Nodestr := "example.com".toList ++ ':' :: Itoa 8000 ++
                         '/' :: "server.cgi".toList,
                       cannotRelay := false }, none) :=
  ⟨by decide, by decide, by decide,
    (MakeNode_roundtrip exampleCfg "example.com".toList "server.cgi".toList 8000
      (by decide) (by decide) (by decide) (by decide)).1⟩

/-- C3: for a node returned by `newNode` or `MakeNode`, `toxstring` contains no
`/`, and replacing every `+` of it by `/` gives back the nodestr. -/
theorem toxstring_roundtrip (cfg : NodeConfig) (n : Node)
    (h : (∃ s, newNode (some cfg) s = .returns (some n, none)) ∨
      (∃ host path port, MakeNode (some cfg) host path port = .returns (some n, none))) :
    '/' ∉ n.toxstring ∧ Replace n.toxstring '+' '/' = n.Nodestr := by
  obtain ⟨s, hs⟩ := MakeNode_ok_newNode cfg n h
  have hplus : '+' ∉ n.Nodestr := by
    rw [(newNode_ok_inv cfg s n hs).2]
    exact not_mem_Replace _ '+' '/' (by decide)
  exact ⟨not_mem_Replace _ '/' '+' (by decide), Replace_Replace_cancel _ '/' '+' hplus⟩

/-- C3 at the node built from `h:80/x+y`. -/
theorem toxstring_roundtrip_witness :
    newNode (some exampleCfg) "h:80/x+y".toList =
      .returns (some { Nodestr := "h:80/x/y".toList, cannotRelay := false }, none) ∧
    '/' ∉ Node.toxstring { Nodestr := "h:80/x/y".toList, cannotRelay := false } ∧
    Replace (Node.toxstring { Nodestr := "h:80/x/y".toList, cannotRelay := false }) '+' '/' =
      "h:80/x/y".toList :=
  ⟨by decide,
    toxstring_roundtrip exampleCfg { Nodestr := "h:80/x/y".toList, cannotRelay := false }
      (Or.inl ⟨"h:80/x+y".toList, by decide⟩)⟩

/-- C4: `newNode` returns an error and no node for the empty string, for a
string of white space only, and for a string in which no decimal digit is
immediately followed by `/`. -/
theorem newNode_rejects (cfg : NodeConfig) (s : Str)
    (h : s = [] ∨ (∀ c ∈ s, isSpace c = true) ∨ hasDigitSlash s = false) :
    newNode (some cfg) s = .returns (none, some .emptyNodestr) ∨
      newNode (some cfg) s = .returns (none, some (.badFormat (TrimSpace s))) := by
  by_cases h1 : TrimSpace s = []
  · exact Or.inl (newNode_empty cfg s h1)
  · rcases h with rfl | h | h
    · exact absurd rfl h1
    · exact absurd (TrimSpace_of_all_space s h) h1
    · refine Or.inr (newNode_bad cfg s h1 ?_)
      cases hm : matchString (TrimSpace s) with
      | false => rfl
      | true =>
        exfalso
        obtain ⟨q, d, p, hd, heq, -, -⟩ := matchString_digit_slash _ hm
        obtain ⟨a, b, hab⟩ := TrimSpace_infix s
        have : hasDigitSlash s = true :=
          (hasDigitSlash_iff s).mpr ⟨a ++ q, d, p ++ b, hd, by rw [hab, heq]; simp⟩
        rw [h] at this
        exact Bool.noConfusion this

/-- C4 at `example.com:8000`, which has no digit followed by `/`. -/
theorem newNode_rejects_witness :
    hasDigitSlash "example.com:8000".toList = false ∧
    (newNode (some exampleCfg) "example.com:8000".toList =
        .returns (none, some .emptyNodestr) ∨
      newNode (some exampleCfg) "example.com:8000".toList =
        .returns (none, some (.badFormat (TrimSpace "example.com:8000".toList)))) :=
  ⟨by decide,
    newNode_rejects exampleCfg "example.com:8000".toList (Or.inr (Or.inr (by decide)))⟩

/-- C5, as amended: for every host, every decimal port and every path that
begins with `/` and contains a `:` after which no decimal digit is immediately
followed by `/`, `newNode` applied to `host:port` followed by the path returns
the bad-format error. -/
theorem newNode_colon_in_path (cfg : NodeConfig) (host port path : Str)
    (hport : port ≠ [] ∧ ∀ c ∈ port, c.isDigit = true)
    (hslash : hasSlashPrefix path = true)
    (hcolon : ∃ a b, path = a ++ ':' :: b ∧ hasDigitSlash b = false) :
    newNode (some cfg) (host ++ ':' :: port ++ path) =
      .returns (none, some (.badFormat (TrimSpace (host ++ ':' :: port ++ path)))) := by
  obtain ⟨a, b, rfl, hb⟩ := hcolon
  have hassoc : host ++ ':' :: port ++ (a ++ ':' :: b)
      = (host ++ ':' :: port ++ a) ++ ':' :: b := by simp
  have htrim := TrimSpace_append_cons (host ++ ':' :: port ++ a) ':' b (by decide)
  apply newNode_bad
  · rw [hassoc, htrim]
    simp
  · rw [hassoc, htrim]
    exact matchString_colon_false _ _ (hasDigitSlash_rdrop b hb)

/-- C5, as amended, at `h:80/a:b`. -/
theorem newNode_colon_in_path_witness :
    ("80".toList ≠ [] ∧ ∀ c ∈ "80".toList, c.isDigit = true) ∧
    hasSlashPrefix "/a:b".toList = true ∧
    newNode (some exampleCfg) ("h".toList ++ ':' :: "80".toList ++ "/a:b".toList) =
      .returns (none, some (.badFormat
        (TrimSpace ("h".toList ++ ':' :: "80".toList ++ "/a:b".toList)))) :=
  ⟨by decide, by decide,
    newNode_colon_in_path exampleCfg "h".toList "80".toList "/a:b".toList
      (by decide) (by decide) ⟨"/a".toList, "b".toList, by decide, by decide⟩⟩

/-- C5, the claim as written fails: the path `/a:1/b` begins with `/` and
contains a `:`, yet `newNode` accepts `h:80/a:1/b`, the pattern matching
`1/b` at the end. -/
theorem newNode_colon_counterexample :
    ("80".toList ≠ [] ∧ ∀ c ∈ "80".toList, c.isDigit = true) ∧
    hasSlashPrefix "/a:1/b".toList = true ∧
    ':' ∈ "/a:1/b".toList ∧
    newNode (some exampleCfg) ("h".toList ++ ':' :: "80".toList ++ "/a:1/b".toList) =
      .returns (some { Nodestr := "h:80/a:1/b".toList, cannotRelay := false }, none) := by
  decide

/-- C6, as amended: every node returned by `newNode` or `MakeNode` has a nodestr
`H ++ D ++ "/" ++ P` with `D` a non-empty run of decimal digits and `P` a
non-empty path without `:`; a `:` before the digits is not required. -/
theorem Nodestr_shape (cfg : NodeConfig) (n : Node)
    (h : (∃ s, newNode (some cfg) s = .returns (some n, none)) ∨
      (∃ host path port, MakeNode (some cfg) host path port = .returns (some n, none))) :
    ∃ H D P, n.Nodestr = H ++ D ++ '/' :: P ∧ D ≠ [] ∧ (∀ c ∈ D, c.isDigit = true) ∧
      P ≠ [] ∧ ':' ∉ P := by
  obtain ⟨s, hs⟩ := MakeNode_ok_newNode cfg n h
  obtain ⟨hm, hn⟩ := newNode_ok_inv cfg s n hs
  obtain ⟨pre, d, p, heq, hd, hdig, hp, hpc⟩ := (matchString_iff _).mp hm
  refine ⟨Replace pre '+' '/', d, Replace p '+' '/', ?_, hd, hdig, ?_, ?_⟩
  · have hdd : Replace d '+' '/' = d :=
      Replace_eq_self d _ _
        (fun c hc => isDigit_ne_of_not_isDigit c '+' (hdig c hc) (by decide))
    rw [hn, heq, Replace_append, Replace_append, Replace_cons, hdd]
    simp
  · cases p with
    | nil => exact absurd rfl hp
    | cons a p => simp [Replace]
  · intro hmem
    exact (hpc ':' (mem_Replace_ne p '+' '/' ':' (by decide) hmem)).1 rfl

/-- C6, as amended, at the node built from `h:80/x+y`. -/
theorem Nodestr_shape_witness :
    newNode (some exampleCfg) "h:80/x+y".toList =
      .returns (some { Nodestr := "h:80/x/y".toList, cannotRelay := false }, none) ∧
    ∃ H D P, "h:80/x/y".toList = H ++ D ++ '/' :: P ∧ D ≠ [] ∧
      (∀ c ∈ D, c.isDigit = true) ∧ P ≠ [] ∧ ':' ∉ P :=
  ⟨by decide,
    Nodestr_shape exampleCfg { Nodestr := "h:80/x/y".toList, cannotRelay := false }
      (Or.inl ⟨"h:80/x+y".toList, by decide⟩)⟩

/-- C6, the claim as written fails: `newNode` accepts `80/x`, and the nodestr
`80/x` has no `:` in it, so it is not of the form `H ++ ":" ++ D ++ "/" ++ P`. -/
theorem Nodestr_colon_counterexample :
    newNode (some exampleCfg) "80/x".toList =
      .returns (some { Nodestr := "80/x".toList, cannotRelay := false }, none) ∧
    ¬ ∃ H D P : Str, "80/x".toList = H ++ ':' :: D ++ '/' :: P := by
  refine ⟨by decide, ?_⟩
  rintro ⟨H, D, P, h⟩
  have hmem : ':' ∈ "80/x".toList := by
    rw [h]
    simp
  exact absurd hmem (by decide)

/-! ## Access control -/

/-- C7: with `a` the answer of the allow list and `d` that of the deny list
for the nodestr, `IsAllowed` is false exactly when `a` is false and `d` is
true, and true in the three other combinations. -/
theorem IsAllowed_table (cfg : NodeConfig) (n : Node) :
    (n.IsAllowed cfg = false ↔
      (cfg.NodeAllow n.Nodestr = false ∧ cfg.NodeDeny n.Nodestr = true)) ∧
    (n.IsAllowed cfg = true ↔
      ((cfg.NodeAllow n.Nodestr = true ∧ cfg.NodeDeny n.Nodestr = true) ∨
       (cfg.NodeAllow n.Nodestr = true ∧ cfg.NodeDeny n.Nodestr = false) ∨
       (cfg.NodeAllow n.Nodestr = false ∧ cfg.NodeDeny n.Nodestr = false))) := by
  unfold Node.IsAllowed
  cases cfg.NodeAllow n.Nodestr <;> cases cfg.NodeDeny n.Nodestr <;> simp

/-! ## Protocol verbs -/

/-- C8: the result of `join`.  A node that is not allowed gets an error and no
node, whatever the peer would answer.  Otherwise, for the lines `res` of a
successful `Talk`: no line is an error; one line is success without a node when
it is `WELCOME` and an error otherwise; with two lines or more the second is
parsed by `newNode` first, a parse error is returned without a node, and a
parsed node is returned without error when the first line is `WELCOME` and
together with an error otherwise.  The lines after the second play no part:
another answer with the same first two lines gives the same result. -/
theorem join_result (net : Net) (cfg : NodeConfig) (n : Node) :
    (n.IsAllowed cfg = false →
      n.join net cfg = .returns (none, some (.notAllowed n.Nodestr))) ∧
    (∀ x res, n.IsAllowed cfg = true →
      Myself.toxstring (some cfg) cfg.Myself = .returns x →
      Node.Talk net cfg (some n) ("/join/".toList ++ x) true = .returns (res, none) →
      (res = [] → n.join net cfg = .returns (none, some .illegalResponse)) ∧
      (∀ r0, res = [r0] →
        n.join net cfg =
          if r0 = "WELCOME".toList then .returns (none, none)
          else .returns (none, some .notWelcomed)) ∧
      (∀ r0 r1 rest, res = r0 :: r1 :: rest →
        (∀ e, newNode (some cfg) r1 = .returns (none, some e) →
          n.join net cfg = .returns (none, some e)) ∧
        (∀ nn, newNode (some cfg) r1 = .returns (some nn, none) →
          n.join net cfg =
            if r0 = "WELCOME".toList then .returns (some nn, none)
            else .returns (some nn, some .notWelcomed)) ∧
        (∀ net2 rest2,
          Node.Talk net2 cfg (some n) ("/join/".toList ++ x) true =
            .returns (r0 :: r1 :: rest2, none) →
          n.join net2 cfg = n.join net cfg))) := by
  refine ⟨fun h => by simp [Node.join, h], ?_⟩
  intro x res hallow hx htalk
  have hjoin : ∀ (nt : Net) (rs : List Str),
      Node.Talk nt cfg (some n) ("/join/".toList ++ x) true = .returns (rs, none) →
      n.join nt cfg =
        match rs with
        | [] => .returns (none, some .illegalResponse)
        | [r0] =>
          if r0 ≠ "WELCOME".toList then .returns (none, some .notWelcomed)
          else .returns (none, none)
        | r0 :: r1 :: _ =>
          match newNode (some cfg) r1 with
          | .fatal => .fatal
          | .panics => .panics
          | .returns (_, some err) => .returns (none, some err)
          | .returns (nn, none) =>
            if r0 ≠ "WELCOME".toList then .returns (nn, some .notWelcomed)
            else .returns (nn, none) := by
    intro nt rs h
    simp only [Node.join, hallow, hx, h]
    rfl
  refine ⟨?_, ?_, ?_⟩
  · rintro rfl
    rw [hjoin net [] htalk]
  · rintro r0 rfl
    rw [hjoin net [r0] htalk]
    by_cases h0 : r0 = "WELCOME".toList <;> simp [h0]
  · rintro r0 r1 rest rfl
    refine ⟨?_, ?_, ?_⟩
    · intro e he
      rw [hjoin net _ htalk]
      simp only [he]
    · intro nn hnn
      rw [hjoin net _ htalk]
      simp only [hnn]
      by_cases h0 : r0 = "WELCOME".toList <;> simp [h0]
    · intro net2 rest2 h2
      rw [hjoin net _ htalk, hjoin net2 _ h2]

/-- C8 for the answer `WELCOME`, `host:9000/server.cgi`: `join` succeeds with
that peer. -/
theorem join_result_witness :
    examplePeer.IsAllowed exampleCfg = true ∧
    Node.Talk welcomeNet exampleCfg (some examplePeer)
        ("/join/".toList ++ ":8000+server.cgi".toList) true =
      .returns (["WELCOME".toList, "host:9000/server.cgi".toList], none) ∧
    examplePeer.join welcomeNet exampleCfg =
      .returns (some { Nodestr := "host:9000/server.cgi".toList, cannotRelay := false },
        none) :=
  ⟨by decide, by decide,
    ((((join_result welcomeNet exampleCfg examplePeer).2 ":8000+server.cgi".toList
        ["WELCOME".toList, "host:9000/server.cgi".toList]
        (by decide) (by decide) (by decide)).2.2
      "WELCOME".toList "host:9000/server.cgi".toList [] rfl).2.1
      { Nodestr := "host:9000/server.cgi".toList, cannotRelay := false } (by decide))⟩

/-- C9: for a non-empty answer `res` of a successful `Talk("/ping")`, `Ping`
succeeds exactly when `res` has two lines and the first is `PONG`; it then
returns the second line and `Myself` is the state after `setIP` of that line;
in every other case it returns the empty string with an error and `Myself` is
unchanged. -/
theorem Ping_result (net : Net) (cfg : NodeConfig) (n : Node) (res : List Str)
    (hne : res ≠ [])
    (htalk : Node.Talk net cfg (some n) "/ping".toList false = .returns (res, none)) :
    ((∃ r m, n.Ping net cfg = .returns ((r, none), m)) ↔
      (res.length = 2 ∧ res.head? = some "PONG".toList)) ∧
    (∀ r1, res = ["PONG".toList, r1] →
      n.Ping net cfg = .returns ((r1, none), cfg.Myself.setIP net r1)) ∧
    (¬ (res.length = 2 ∧ res.head? = some "PONG".toList) →
      n.Ping net cfg = .returns (([], some .notPonged), cfg.Myself)) := by
  have hping : n.Ping net cfg =
      match res[0]? with
      | none => .panics
      | some r0 =>
        if r0 = "PONG".toList && res.length = 2 then
          match res[1]? with
          | none => .panics
          | some r1 => .returns ((r1, none), cfg.Myself.setIP net r1)
        else
          .returns (([], some .notPonged), cfg.Myself) := by
    simp only [Node.Ping, htalk]
  rw [hping]
  cases res with
  | nil => exact absurd rfl hne
  | cons r0 rest =>
    by_cases h0 : r0 = "PONG".toList
    · subst h0
      cases rest with
      | nil => simp
      | cons r1 rest =>
        cases rest with
        | nil => simp
        | cons r2 rest => simp
    · have h0' : ¬ r0 = ['P', 'O', 'N', 'G'] := h0
      simp [h0']

/-- C9 for the answer `PONG`, `203.0.113.5`. -/
theorem Ping_result_witness :
    Node.Talk pongNet exampleCfg (some examplePeer) "/ping".toList false =
      .returns (["PONG".toList, "203.0.113.5".toList], none) ∧
    examplePeer.Ping pongNet exampleCfg =
      .returns (("203.0.113.5".toList, none),
        exampleCfg.Myself.setIP pongNet "203.0.113.5".toList) :=
  ⟨by decide,
    (Ping_result pongNet exampleCfg examplePeer ["PONG".toList, "203.0.113.5".toList]
      (by decide) (by decide)).2.1 "203.0.113.5".toList rfl⟩

/-- C10, what the code does: when `Talk` succeeds with no line at all, `Ping`
and `getNode` both read `res[0]` and panic with an index out of range; neither
returns an error. -/
theorem Ping_getNode_empty_response (net : Net) (cfg : NodeConfig) (n : Node)
    (hping : Node.Talk net cfg (some n) "/ping".toList false = .returns ([], none))
    (hnode : Node.Talk net cfg (some n) "/node".toList false = .returns ([], none)) :
    n.Ping net cfg = .panics ∧ n.getNode net cfg = .panics := by
  constructor
  · simp only [Node.Ping, hping]
    rfl
  · simp only [Node.getNode, hnode]
    rfl

/-- C10 at a peer that answers every request with an empty body. -/
theorem Ping_getNode_empty_response_witness :
    Node.Talk emptyBodyNet exampleCfg (some examplePeer) "/ping".toList false =
      .returns ([], none) ∧
    Node.Talk emptyBodyNet exampleCfg (some examplePeer) "/node".toList false =
      .returns ([], none) ∧
    examplePeer.Ping emptyBodyNet exampleCfg = .panics ∧
    examplePeer.getNode emptyBodyNet exampleCfg = .panics :=
  ⟨by decide, by decide,
    Ping_getNode_empty_response emptyBodyNet exampleCfg examplePeer (by decide) (by decide)⟩

/-- C11: whatever `Talk` returns for `/bye/<own nodestr>`, `bye` returns a
boolean: no error comes out of it, and `res[0]` is never read out of range, so
that `bye` panics only if `Talk` itself does.  The boolean is true exactly when
`Talk` returned no error and a first line `BYEBYE`; it is false when `Talk`
returned an error and when there is no line. -/
theorem bye_result (net : Net) (cfg : NodeConfig) (n : Node) (x : Str)
    (hself : Myself.Nodestr (some cfg) cfg.Myself = .returns x) :
    (∀ (res : List Str) (err : Option GoError),
      Node.Talk net cfg (some n) ("/bye/".toList ++ x) true = .returns (res, err) →
      ∃ b, n.bye net cfg = .returns b ∧
        (b = true ↔ (err = none ∧ ∃ rest, res = "BYEBYE".toList :: rest)) ∧
        (err ≠ none → b = false) ∧ (res = [] → b = false)) ∧
    (n.bye net cfg = .panics →
      Node.Talk net cfg (some n) ("/bye/".toList ++ x) true = .panics) := by
  have hres : ∀ (res : List Str) (err : Option GoError),
      Node.Talk net cfg (some n) ("/bye/".toList ++ x) true = .returns (res, err) →
      ∃ b, n.bye net cfg = .returns b ∧
        (b = true ↔ (err = none ∧ ∃ rest, res = "BYEBYE".toList :: rest)) ∧
        (err ≠ none → b = false) ∧ (res = [] → b = false) := by
    intro res err htalk
    cases err with
    | some e =>
      refine ⟨false, ?_, by simp, by simp, by simp⟩
      simp only [Node.bye, hself, htalk]
    | none =>
      cases res with
      | nil =>
        refine ⟨false, ?_, by simp, by simp, by simp⟩
        simp only [Node.bye, hself, htalk]
        rfl
      | cons r0 rest =>
        refine ⟨decide (r0 = "BYEBYE".toList), ?_, ?_, by simp, by simp⟩
        · simp only [Node.bye, hself, htalk]
          rw [if_pos (by simp), List.getElem?_cons_zero]
        · simp only [decide_eq_true_eq, true_and, List.cons.injEq, exists_eq_right']
  refine ⟨hres, ?_⟩
  intro hp
  cases ht : Node.Talk net cfg (some n) ("/bye/".toList ++ x) true with
  | panics => rfl
  | fatal =>
    simp only [Node.bye, hself, ht] at hp
    exact absurd hp (by simp)
  | returns a =>
    obtain ⟨res, err⟩ := a
    obtain ⟨b, hb, -⟩ := hres res err ht
    rw [hb] at hp
    exact absurd hp (by simp)

/-- C11 for a peer that answers `BYEBYE`. -/
theorem bye_result_witness :
    Myself.Nodestr (some exampleCfg) exampleCfg.Myself = .returns ":8000/server.cgi".toList ∧
    Node.Talk byeNet exampleCfg (some examplePeer)
        ("/bye/".toList ++ ":8000/server.cgi".toList) true =
      .returns (["BYEBYE".toList], none) ∧
    ∃ b, examplePeer.bye byeNet exampleCfg = .returns b ∧
      (b = true ↔ ((none : Option GoError) = none ∧
        ∃ rest, ["BYEBYE".toList] = "BYEBYE".toList :: rest)) ∧
      ((none : Option GoError) ≠ none → b = false) ∧
      (["BYEBYE".toList] = ([] : List Str) → b = false) :=
  ⟨by decide, by decide,
    (bye_result byeNet exampleCfg examplePeer ":8000/server.cgi".toList (by decide)).1
      ["BYEBYE".toList] none (by decide)⟩

/-! ## The state of `Myself` -/

/-- C12, as amended: `proxyURL p` is `p` when no relay server is set, and the
nodestr of the relay server followed by `/proxy/` and `p` when one is set, in
particular whenever `IsRelayed` is true; `port0` plays no part. -/
theorem proxyURL_result (m : Myself) (p : Str) :
    (m.relayServer = none → m.proxyURL p = p) ∧
    (∀ r, m.relayServer = some r → m.proxyURL p = r.Nodestr ++ "/proxy/".toList ++ p) ∧
    (m.IsRelayed = true →
      ∃ r, m.relayServer = some r ∧ m.proxyURL p = r.Nodestr ++ "/proxy/".toList ++ p) := by
  refine ⟨fun h => by simp [Myself.proxyURL, h], fun r h => by simp [Myself.proxyURL, h], ?_⟩
  intro h
  cases hr : m.relayServer with
  | none => simp [Myself.IsRelayed, hr] at h
  | some r => exact ⟨r, rfl, by simp [Myself.proxyURL, hr]⟩

/-- C12, as amended, at a relayed node. -/
theorem proxyURL_result_witness :
    relayedMyself.IsRelayed = true ∧
    ∃ r, relayedMyself.relayServer = some r ∧
      relayedMyself.proxyURL "ping".toList = r.Nodestr ++ "/proxy/".toList ++ "ping".toList :=
  ⟨by decide, (proxyURL_result relayedMyself "ping".toList).2.2 (by decide)⟩

/-- C12, the claim as written fails: after a relay attach on a fresh `Myself`,
`port0` is false, so `IsRelayed` is false, yet `proxyURL` puts the proxy prefix
before the path. -/
theorem proxyURL_counterexample :
    (Myself.run emptyBodyNet (NewMyself 8000 "/server.cgi".toList [])
        [.attach examplePeer]).IsRelayed = false ∧
    (Myself.run emptyBodyNet (NewMyself 8000 "/server.cgi".toList [])
        [.attach examplePeer]).proxyURL "ping".toList ≠ "ping".toList := by
  decide

/-- C13, as amended: in every state reached from `NewMyself` by a sequence of
`setPort0`, `setIP`, relay attach and relay detach in which a relay is attached
only while `port0` is true and `port0` is cleared only while no relay is
attached, `relayServer` is non-nil only if `port0` is true. -/
theorem relayServer_port0_guarded (net : Net) (port : Int) (path serverName : Str)
    (ops : List MyselfOp)
    (h : guardedRun net (NewMyself port path serverName) ops = true) :
    (Myself.run net (NewMyself port path serverName) ops).relayServer ≠ none →
      (Myself.run net (NewMyself port path serverName) ops).port0 = true := by
  have key : ∀ (ops : List MyselfOp) (m : Myself),
      (m.relayServer ≠ none → m.port0 = true) → guardedRun net m ops = true →
      (Myself.run net m ops).relayServer ≠ none → (Myself.run net m ops).port0 = true := by
    intro ops
    induction ops with
    | nil => intro m hm _; exact hm
    | cons op ops ih =>
      intro m hm hg
      simp only [guardedRun, Bool.and_eq_true] at hg
      have hstep : (m.apply net op).relayServer ≠ none → (m.apply net op).port0 = true := by
        cases op with
        | setPort0 b =>
          cases b with
          | true => intro _; rfl
          | false =>
            intro hr
            have h1 : m.relayServer.isNone = true := hg.1
            simp only [Myself.apply, Myself.setPort0] at hr
            rw [Option.isNone_iff_eq_none] at h1
            exact absurd h1 hr
        | setIP ip =>
          simp only [Myself.apply, Myself.setIP]
          split
          · exact hm
          · exact hm
        | attach n => intro _; exact hg.1
        | detach => intro hr; exact absurd rfl hr
      exact ih (m.apply net op) hstep hg.2
  exact key ops _ (fun hr => absurd rfl hr) h

/-- C13, as amended, for `setPort0(true)`, attach, `setIP`, detach, attach. -/
theorem relayServer_port0_guarded_witness :
    guardedRun pongNet (NewMyself 8000 "/server.cgi".toList [])
      [.setPort0 true, .attach examplePeer, .setIP "203.0.113.5".toList, .detach,
        .attach examplePeer] = true ∧
    ((Myself.run pongNet (NewMyself 8000 "/server.cgi".toList [])
      [.setPort0 true, .attach examplePeer, .setIP "203.0.113.5".toList, .detach,
        .attach examplePeer]).relayServer ≠ none →
    (Myself.run pongNet (NewMyself 8000 "/server.cgi".toList [])
      [.setPort0 true, .attach examplePeer, .setIP "203.0.113.5".toList, .detach,
        .attach examplePeer]).port0 = true) :=
  ⟨by decide,
    relayServer_port0_guarded pongNet 8000 "/server.cgi".toList []
      [.setPort0 true, .attach examplePeer, .setIP "203.0.113.5".toList, .detach,
        .attach examplePeer] (by decide)⟩

/-- C13, the claim as written fails: a relay attach right after `NewMyself`
leaves `relayServer` set while `port0` is false, and so does `setPort0(false)`
on a relayed node. -/
theorem relayServer_port0_counterexample :
    ((Myself.run emptyBodyNet (NewMyself 8000 "/server.cgi".toList [])
        [.attach examplePeer]).relayServer = some examplePeer ∧
      (Myself.run emptyBodyNet (NewMyself 8000 "/server.cgi".toList [])
        [.attach examplePeer]).port0 = false) ∧
    ((Myself.run emptyBodyNet (NewMyself 8000 "/server.cgi".toList [])
        [.setPort0 true, .attach examplePeer, .setPort0 false]).relayServer =
          some examplePeer ∧
      (Myself.run emptyBodyNet (NewMyself 8000 "/server.cgi".toList [])
        [.setPort0 true, .attach examplePeer, .setPort0 false]).port0 = false) := by
  decide

/-- C15: `setIP s` changes no field but `ip`; afterwards `ip` is `s` when
`net.ParseIP` accepts `s` and the previous `ip` otherwise.  So a `Ping` answered
with `PONG`, `203.0.113.5`, an address `net.ParseIP` accepts, succeeds and
leaves `ip = 203.0.113.5` and the other fields as they were. -/
theorem setIP_frame (net : Net) (m : Myself) (s : Str) :
    ((m.setIP net s).Port = m.Port ∧ (m.setIP net s).Path = m.Path ∧
      (m.setIP net s).ServerName = m.ServerName ∧ (m.setIP net s).port0 = m.port0 ∧
      (m.setIP net s).relayServer = m.relayServer) ∧
    (net.ParseIP s = true → (m.setIP net s).ip = s) ∧
    (net.ParseIP s = false → (m.setIP net s).ip = m.ip) ∧
    (∀ (cfg : NodeConfig) (n : Node),
      net.ParseIP "203.0.113.5".toList = true →
      Node.Talk net cfg (some n) "/ping".toList false =
        .returns (["PONG".toList, "203.0.113.5".toList], none) →
      n.Ping net cfg =
        .returns (("203.0.113.5".toList, none),
          { cfg.Myself with ip := "203.0.113.5".toList })) := by
  refine ⟨?_, ?_, ?_, ?_⟩
  · unfold Myself.setIP
    split <;> simp
  · intro h
    simp [Myself.setIP, h]
  · intro h
    simp [Myself.setIP, h]
  · intro cfg n hip htalk
    simp only [Node.Ping, htalk]
    simp only [Myself.setIP]
    simp only [List.getElem?_cons_zero, List.getElem?_cons_succ, List.length_cons,
      List.length_nil, hip]
    simp

/-- C15 for the peer answering `PONG`, `203.0.113.5`. -/
theorem setIP_frame_witness :
    pongNet.ParseIP "203.0.113.5".toList = true ∧
    Node.Talk pongNet exampleCfg (some examplePeer) "/ping".toList false =
      .returns (["PONG".toList, "203.0.113.5".toList], none) ∧
    examplePeer.Ping pongNet exampleCfg =
      .returns (("203.0.113.5".toList, none),
        { exampleCfg.Myself with ip := "203.0.113.5".toList }) :=
  ⟨by decide, by decide,
    (setIP_frame pongNet exampleCfg.Myself []).2.2.2 exampleCfg examplePeer
      (by decide) (by decide)⟩

/-! ## `Slice.uniq` -/

theorem uniqLoop_ret (ns : Slice) : ∀ (m : List Str) (ret : Slice),
    Slice.uniqLoop m ret ns = ret ++ Slice.uniqLoop m [] ns := by
  induction ns with
  | nil => intro m ret; simp [Slice.uniqLoop]
  | cons n rest ih =>
    intro m ret
    simp only [Slice.uniqLoop]
    split
    · exact ih m ret
    · rw [ih (n.Nodestr :: m) (ret ++ [n]), ih (n.Nodestr :: m) ([] ++ [n])]
      simp

theorem uniqLoop_cons (m : List Str) (n : Node) (rest : Slice) :
    Slice.uniqLoop m [] (n :: rest) =
      if n.Nodestr ∈ m then Slice.uniqLoop m [] rest
      else n :: Slice.uniqLoop (n.Nodestr :: m) [] rest := by
  simp only [Slice.uniqLoop]
  split
  · rfl
  · rw [uniqLoop_ret rest (n.Nodestr :: m) ([] ++ [n])]
    simp

theorem uniqLoop_sublist (ns : Slice) : ∀ m : List Str,
    (Slice.uniqLoop m [] ns).Sublist ns := by
  induction ns with
  | nil => intro m; simp [Slice.uniqLoop]
  | cons n rest ih =>
    intro m
    rw [uniqLoop_cons]
    split
    · exact (ih m).cons n
    · exact (ih _).cons₂ n

theorem uniqLoop_keys (ns : Slice) : ∀ (m : List Str) (k : Str),
    k ∈ (Slice.uniqLoop m [] ns).map Node.Nodestr ↔ (k ∈ ns.map Node.Nodestr ∧ k ∉ m) := by
  induction ns with
  | nil => intro m k; simp [Slice.uniqLoop]
  | cons n rest ih =>
    intro m k
    rw [uniqLoop_cons]
    by_cases hn : n.Nodestr ∈ m
    · rw [if_pos hn, ih m k]
      simp only [List.map_cons, List.mem_cons]
      constructor
      · rintro ⟨h1, h2⟩
        exact ⟨Or.inr h1, h2⟩
      · rintro ⟨h1 | h1, h2⟩
        · exact absurd (h1 ▸ hn) h2
        · exact ⟨h1, h2⟩
    · rw [if_neg hn]
      simp only [List.map_cons, List.mem_cons, ih (n.Nodestr :: m) k, not_or]
      constructor
      · rintro (h | ⟨h1, -, h3⟩)
        · exact ⟨Or.inl h, h ▸ hn⟩
        · exact ⟨Or.inr h1, h3⟩
      · rintro ⟨h1 | h1, h2⟩
        · exact Or.inl h1
        · by_cases hk : k = n.Nodestr
          · exact Or.inl hk
          · exact Or.inr ⟨h1, hk, h2⟩

theorem uniqLoop_nodup (ns : Slice) : ∀ m : List Str,
    ((Slice.uniqLoop m [] ns).map Node.Nodestr).Nodup := by
  induction ns with
  | nil => intro m; simp [Slice.uniqLoop]
  | cons n rest ih =>
    intro m
    rw [uniqLoop_cons]
    split
    · exact ih m
    · rw [List.map_cons, List.nodup_cons]
      refine ⟨?_, ih _⟩
      intro h
      have := ((uniqLoop_keys rest (n.Nodestr :: m) n.Nodestr).mp h).2
      exact this (List.mem_cons_self _ _)

theorem uniqLoop_snoc (pre : Slice) (n : Node) : ∀ m : List Str,
    Slice.uniqLoop m [] (pre ++ [n]) =
      if n.Nodestr ∈ m ∨ n.Nodestr ∈ pre.map Node.Nodestr then Slice.uniqLoop m [] pre
      else Slice.uniqLoop m [] pre ++ [n] := by
  induction pre with
  | nil =>
    intro m
    simp only [List.nil_append, List.map_nil, List.not_mem_nil, or_false]
    rw [uniqLoop_cons]
    simp [Slice.uniqLoop]
  | cons a pre ih =>
    intro m
    rw [List.cons_append, uniqLoop_cons, uniqLoop_cons]
    by_cases ha : a.Nodestr ∈ m
    · rw [if_pos ha, if_pos ha, ih m]
      by_cases hn : n.Nodestr ∈ m
      · simp [hn]
      · have hna : n.Nodestr ≠ a.Nodestr := fun e => hn (e ▸ ha)
        simp [hn, hna]
    · rw [if_neg ha, if_neg ha, ih (a.Nodestr :: m)]
      by_cases hna : n.Nodestr = a.Nodestr
      · simp [hna]
      · by_cases h1 : n.Nodestr ∈ m ∨ n.Nodestr ∈ pre.map Node.Nodestr
        · have h2 : n.Nodestr ∈ a.Nodestr :: m ∨ n.Nodestr ∈ pre.map Node.Nodestr := by
            rcases h1 with h | h
            · exact Or.inl (List.mem_cons_of_mem _ h)
            · exact Or.inr h
          have h3 : n.Nodestr ∈ m ∨ n.Nodestr ∈ (a :: pre).map Node.Nodestr := by
            rcases h1 with h | h
            · exact Or.inl h
            · exact Or.inr (by simp only [List.map_cons]; exact List.mem_cons_of_mem _ h)
          rw [if_pos h2, if_pos h3]
        · have h2 : ¬ (n.Nodestr ∈ a.Nodestr :: m ∨ n.Nodestr ∈ pre.map Node.Nodestr) := by
            rintro (h | h)
            · rcases List.mem_cons.mp h with h | h
              · exact hna h
              · exact h1 (Or.inl h)
            · exact h1 (Or.inr h)
          have h3 : ¬ (n.Nodestr ∈ m ∨ n.Nodestr ∈ (a :: pre).map Node.Nodestr) := by
            rintro (h | h)
            · exact h1 (Or.inl h)
            · simp only [List.map_cons] at h
              rcases List.mem_cons.mp h with h | h
              · exact hna h
              · exact h1 (Or.inr h)
          rw [if_neg h2, if_neg h3]
          simp

theorem uniqLoop_fixed (l : Slice) : ∀ m : List Str,
    (l.map Node.Nodestr).Nodup → (∀ e ∈ l, e.Nodestr ∉ m) → Slice.uniqLoop m [] l = l := by
  induction l with
  | nil => intro m _ _; simp [Slice.uniqLoop]
  | cons a l ih =>
    intro m hnd hm
    rw [List.map_cons, List.nodup_cons] at hnd
    rw [uniqLoop_cons, if_neg (hm a (List.mem_cons_self _ _)), ih (a.Nodestr :: m) hnd.2]
    intro e he hmem
    rcases List.mem_cons.mp hmem with h | h
    · exact hnd.1 (h ▸ List.mem_map_of_mem _ he)
    · exact hm e (List.mem_cons_of_mem _ he) h

/-- C14: `uniq` keeps an element exactly when no earlier element of the slice
has the same nodestr, in the original order (the empty slice gives the empty
slice, and the slice extended by `n` gives the same result, extended by `n`
when no element before it has its nodestr); so the result is a subsequence of
`ns`, has no two elements with one nodestr, has the nodestrs of `ns`, `uniq` is
idempotent, and `[A,B,A,C,B]` gives `[A,B,C]`. -/
theorem uniq_spec (ns : Slice) :
    Slice.uniq [] = [] ∧
    (∀ (pre : Slice) (n : Node),
      Slice.uniq (pre ++ [n]) =
        if n.Nodestr ∈ pre.map Node.Nodestr then Slice.uniq pre
        else Slice.uniq pre ++ [n]) ∧
    (Slice.uniq ns).Sublist ns ∧
    ((Slice.uniq ns).map Node.Nodestr).Nodup ∧
    (∀ k, k ∈ (Slice.uniq ns).map Node.Nodestr ↔ k ∈ ns.map Node.Nodestr) ∧
    Slice.uniq (Slice.uniq ns) = Slice.uniq ns ∧
    (∀ a b c : Node, a.Nodestr ≠ b.Nodestr → a.Nodestr ≠ c.Nodestr →
      b.Nodestr ≠ c.Nodestr → Slice.uniq [a, b, a, c, b] = [a, b, c]) := by
  refine ⟨rfl, ?_, uniqLoop_sublist ns [], uniqLoop_nodup ns [], ?_, ?_, ?_⟩
  · intro pre n
    have := uniqLoop_snoc pre n []
    simpa [Slice.uniq] using this
  · intro k
    have := uniqLoop_keys ns [] k
    simpa [Slice.uniq] using this
  · exact uniqLoop_fixed _ [] (uniqLoop_nodup ns []) (fun _ _ h => by simp at h)
  · intro a b c hab hac hbc
    have hba : b.Nodestr ≠ a.Nodestr := fun e => hab e.symm
    have hca : c.Nodestr ≠ a.Nodestr := fun e => hac e.symm
    have hcb : c.Nodestr ≠ b.Nodestr := fun e => hbc e.symm
    simp [Slice.uniq, Slice.uniqLoop, hba, hca, hcb]

/-- C14 for three peers `a`, `b`, `c`. -/
theorem uniq_spec_witness :
    Slice.uniq
      [⟨"a:1/x".toList, false⟩, ⟨"b:1/x".toList, false⟩, ⟨"a:1/x".toList, true⟩,
        ⟨"c:1/x".toList, false⟩, ⟨"b:1/x".toList, false⟩] =
      [⟨"a:1/x".toList, false⟩, ⟨"b:1/x".toList, false⟩, ⟨"c:1/x".toList, false⟩] ∧
    Slice.uniq [⟨"a:1/x".toList, false⟩, ⟨"b:1/x".toList, false⟩, ⟨"a:1/x".toList, false⟩,
        ⟨"c:1/x".toList, false⟩, ⟨"b:1/x".toList, false⟩] =
      [⟨"a:1/x".toList, false⟩, ⟨"b:1/x".toList, false⟩, ⟨"c:1/x".toList, false⟩] :=
  ⟨by decide,
    (uniq_spec []).2.2.2.2.2.2 ⟨"a:1/x".toList, false⟩ ⟨"b:1/x".toList, false⟩
      ⟨"c:1/x".toList, false⟩ (by decide) (by decide) (by decide)⟩

/-! ## `Talk` and the address of the local node -/

/-- C20: for a node `n`, `Talk` requests `http://` followed by the nodestr of
`n` and the message when `proxy` is false or no relay server is set, and
`http://`, the nodestr of the relay server, `/proxy/`, the nodestr of `n` and
the message when `proxy` is true and a relay server is set; the message is
taken as it is when it starts with `/` and with a `/` put before it otherwise,
so that the message so normalised starts with `/` and gives the same request.
For the nil node `Talk` returns the error `n==nil`, whatever the network. -/
theorem Talk_url (net : Net) (cfg : NodeConfig) (message : Str) (proxy : Bool) :
    (∀ n : Node, (proxy = false ∨ cfg.Myself.relayServer = none) →
      Node.Talk net cfg (some n) message proxy =
        Node.urlopen net cfg ("http://".toList ++ n.Nodestr ++
          (if hasSlashPrefix message = true then message else '/' :: message))) ∧
    (∀ n r : Node, proxy = true → cfg.Myself.relayServer = some r →
      Node.Talk net cfg (some n) message proxy =
        Node.urlopen net cfg ("http://".toList ++ r.Nodestr ++ "/proxy/".toList ++ n.Nodestr ++
          (if hasSlashPrefix message = true then message else '/' :: message))) ∧
    hasSlashPrefix (if hasSlashPrefix message = true then message else '/' :: message) = true ∧
    (∀ n : Option Node,
      Node.Talk net cfg n (if hasSlashPrefix message = true then message else '/' :: message)
        proxy = Node.Talk net cfg n message proxy) ∧
    Node.Talk net cfg none message proxy = .returns ([], some .nilNode) := by
  have hnorm : hasSlashPrefix (if hasSlashPrefix message = true then message
      else '/' :: message) = true := by
    by_cases h : hasSlashPrefix message = true
    · rw [if_pos h]
      exact h
    · rw [if_neg h]
      rfl
  refine ⟨?_, ?_, hnorm, ?_, ?_⟩
  · intro n h
    by_cases hm : hasSlashPrefix message = true
    · rcases h with h | h
      · simp [Node.Talk, hm, h]
      · cases proxy <;> simp [Node.Talk, hm, h, Myself.proxyURL]
    · rcases h with h | h
      · simp [Node.Talk, hm, h]
      · cases proxy <;> simp [Node.Talk, hm, h, Myself.proxyURL]
  · intro n r hp hr
    by_cases hm : hasSlashPrefix message = true
    · simp [Node.Talk, hm, hp, hr, Myself.proxyURL]
    · simp [Node.Talk, hm, hp, hr, Myself.proxyURL]
  · intro n
    by_cases hm : hasSlashPrefix message = true
    · rw [if_pos hm]
    · rw [if_neg hm]
      have h1 : hasSlashPrefix ('/' :: message) = true := rfl
      simp only [Node.Talk, h1, hm]
      rfl
  · by_cases hm : hasSlashPrefix message = true <;> simp [Node.Talk, hm]

theorem Itoa_chars (i : Int) : ∀ c ∈ Itoa i, c.isDigit = true ∨ c = '-' := by
  cases i with
  | ofNat n =>
    intro c hc
    exact Or.inl (toDigits_isDigit n c hc)
  | negSucc n =>
    intro c hc
    rcases List.mem_cons.mp hc with h | h
    · exact Or.inr h
    · exact Or.inl (toDigits_isDigit _ c h)

theorem Itoa_not_space (i : Int) : ∀ c ∈ Itoa i, isSpace c = false := by
  intro c hc
  rcases Itoa_chars i c hc with h | h
  · cases hs : isSpace c with
    | false => rfl
    | true =>
      exfalso
      simp only [Char.isDigit, Bool.and_eq_true, decide_eq_true_eq] at h
      simp only [isSpace, Char.toNat, Bool.or_eq_true, Bool.and_eq_true, decide_eq_true_eq,
        beq_iff_eq] at hs
      have h1 : (48 : UInt32).toNat ≤ c.val.toNat := h.1
      have h2 : c.val.toNat ≤ (57 : UInt32).toNat := h.2
      have e1 : (48 : UInt32).toNat = 48 := by decide
      have e2 : (57 : UInt32).toNat = 57 := by decide
      omega
  · subst h
    decide

theorem Itoa_not_plus (i : Int) : ∀ c ∈ Itoa i, c ≠ '+' := by
  intro c hc
  rcases Itoa_chars i c hc with h | h
  · exact isDigit_ne_of_not_isDigit c '+' h (by decide)
  · subst h
    decide

theorem noOuterSpace_head (s : Str) (h : noOuterSpace s = true) :
    ∀ c, s.head? = some c → isSpace c = false := by
  intro c hc
  simp only [noOuterSpace, Bool.and_eq_true, hc, Option.all_some, Bool.not_eq_true'] at h
  exact h.1

theorem noOuterSpace_last (s : Str) (h : noOuterSpace s = true) :
    ∀ c, s.getLast? = some c → isSpace c = false := by
  intro c hc
  simp only [noOuterSpace, Bool.and_eq_true, hc, Option.all_some, Bool.not_eq_true'] at h
  exact h.2

theorem TrimSpace_head (t : Str) : ∀ c, (TrimSpace t).head? = some c → isSpace c = false := by
  intro c hc
  obtain ⟨b, hb⟩ := dropWhile_suffix isSpace (t.dropWhile isSpace).reverse
  have h2 : t.dropWhile isSpace = TrimSpace t ++ b.reverse := by
    have := congrArg List.reverse hb
    simpa [TrimSpace] using this
  cases hts : TrimSpace t with
  | nil =>
    rw [hts] at hc
    simp at hc
  | cons a rest =>
    rw [hts] at hc h2
    simp only [List.head?_cons, Option.some.injEq] at hc
    subst hc
    have h3 := List.head?_dropWhile_not isSpace t
    rw [h2] at h3
    simpa using h3

/-- A nodestr built by `newNode` has no `+` and no white space at its head. -/
theorem newNode_nodestr_clean (cfg : NodeConfig) (s : Str) (r : Node)
    (h : newNode (some cfg) s = .returns (some r, none)) :
    '+' ∉ r.Nodestr ∧ ∀ c, r.Nodestr.head? = some c → isSpace c = false := by
  obtain ⟨-, hn⟩ := newNode_ok_inv cfg s r h
  rw [hn]
  refine ⟨not_mem_Replace _ '+' '/' (by decide), ?_⟩
  intro c hc
  cases hts : TrimSpace s with
  | nil =>
    rw [hts] at hc
    simp [Replace] at hc
  | cons a rest =>
    rw [hts, Replace_cons] at hc
    simp only [List.head?_cons, Option.some.injEq] at hc
    have ha : isSpace a = false := TrimSpace_head s a (by rw [hts]; rfl)
    by_cases hp : a = '+'
    · rw [if_pos hp] at hc
      subst hc
      decide
    · rw [if_neg hp] at hc
      subst hc
      exact ha

theorem toNode_inv (cfg : NodeConfig) (m : Myself) (n : Node)
    (h : Myself.toNode (some cfg) m = .returns n) :
    newNode (some cfg)
      ((match m.relayServer with
        | some r => r.Nodestr ++ "/relay/".toList ++
            (if m.ServerName = [] then m.ip else m.ServerName)
        | none => if m.ServerName = [] then m.ip else m.ServerName) ++
        ':' :: Itoa m.Port ++ m.Path) = .returns (some n, none) := by
  unfold Myself.toNode at h
  simp only at h
  split at h
  · rename_i n2 heq
    simp only [Outcome.returns.injEq] at h
    subst h
    exact heq
  · exact absurd h (by simp)
  · exact absurd h (by simp)
  · exact absurd h (by simp)

/-- The text `sn:port path` is left as it is by `newNode` when it has no `+`
and no white space at its two ends. -/
theorem address_clean (sn path : Str) (port : Int)
    (hsn : '+' ∉ sn ∧ ∀ c, sn.head? = some c → isSpace c = false)
    (hpath : '+' ∉ path ∧ ∀ c, path.getLast? = some c → isSpace c = false) :
    Replace (TrimSpace (sn ++ ':' :: Itoa port ++ path)) '+' '/' =
      sn ++ ':' :: Itoa port ++ path := by
  have htrim : TrimSpace (sn ++ ':' :: Itoa port ++ path) = sn ++ ':' :: Itoa port ++ path := by
    apply TrimSpace_eq_self
    · intro c hc
      cases sn with
      | nil =>
        simp only [List.nil_append, List.cons_append, List.head?_cons, Option.some.injEq] at hc
        subst hc
        decide
      | cons a sn =>
        simp only [List.cons_append, List.head?_cons, Option.some.injEq] at hc
        subst hc
        exact hsn.2 _ rfl
    · intro c hc
      cases path with
      | nil =>
        rw [List.append_nil, List.getLast?_append_of_ne_nil _ (by simp)] at hc
        rcases List.mem_cons.mp (List.mem_of_getLast?_eq_some hc) with h | h
        · subst h
          decide
        · exact Itoa_not_space port c h
      | cons a path =>
        rw [List.getLast?_append_of_ne_nil _ (by simp)] at hc
        exact hpath.2 c hc
  rw [htrim]
  apply Replace_eq_self
  intro c hc
  simp only [List.mem_append, List.mem_cons] at hc
  rcases hc with (hc | rfl | hc) | hc
  · exact fun e => hsn.1 (e ▸ hc)
  · decide
  · exact Itoa_not_plus port c hc
  · exact fun e => hpath.1 (e ▸ hc)

/-- C19: let `toNode` succeed with the node `n`, and let `ServerName`, `ip` and
`Path` be free of `+` and of white space at their ends, the relay server, if
any, being a node built by `newNode`; write `name` for `ServerName` when it is
not empty and for `ip` otherwise.  With a relay server `r` set, as it is when
the node is relayed, the nodestr of `n` is the nodestr of `r`, `/relay/`,
`name`, `:`, the port in decimal and `Path`; with no relay server it is
`name`, `:`, the port and `Path`.  `Myself.Nodestr` returns that nodestr and
`Myself.toxstring` returns it with every `/` replaced by `+`. -/
theorem toNode_nodestr (cfg : NodeConfig) (m : Myself) (n : Node)
    (hsucc : Myself.toNode (some cfg) m = .returns n)
    (hname : '+' ∉ m.ServerName ∧ noOuterSpace m.ServerName = true)
    (hip : '+' ∉ m.ip ∧ noOuterSpace m.ip = true)
    (hpath : '+' ∉ m.Path ∧ noOuterSpace m.Path = true)
    (hrelay : ∀ r, m.relayServer = some r →
      ∃ s, newNode (some cfg) s = .returns (some r, none)) :
    (∀ r, m.relayServer = some r →
      n.Nodestr = r.Nodestr ++ "/relay/".toList ++
        (if m.ServerName = [] then m.ip else m.ServerName) ++ ':' :: Itoa m.Port ++ m.Path) ∧
    (m.IsRelayed = true → ∃ r, m.relayServer = some r) ∧
    (m.relayServer = none →
      n.Nodestr =
        (if m.ServerName = [] then m.ip else m.ServerName) ++ ':' :: Itoa m.Port ++ m.Path) ∧
    Myself.Nodestr (some cfg) m = .returns n.Nodestr ∧
    Myself.toxstring (some cfg) m = .returns (Replace n.Nodestr '/' '+') := by
  have hnm : '+' ∉ (if m.ServerName = [] then m.ip else m.ServerName) ∧
      ∀ c, (if m.ServerName = [] then m.ip else m.ServerName).head? = some c →
        isSpace c = false := by
    split
    · exact ⟨hip.1, noOuterSpace_head _ hip.2⟩
    · exact ⟨hname.1, noOuterSpace_head _ hname.2⟩
  have hp : '+' ∉ m.Path ∧ ∀ c, m.Path.getLast? = some c → isSpace c = false :=
    ⟨hpath.1, noOuterSpace_last _ hpath.2⟩
  have hnew := toNode_inv cfg m n hsucc
  refine ⟨?_, ?_, ?_, ?_, ?_⟩
  · intro r hr
    rw [hr] at hnew
    obtain ⟨s, hs⟩ := hrelay r hr
    obtain ⟨hr1, hr2⟩ := newNode_nodestr_clean cfg s r hs
    have hsn : '+' ∉ r.Nodestr ++ "/relay/".toList ++
          (if m.ServerName = [] then m.ip else m.ServerName) ∧
        ∀ c, (r.Nodestr ++ "/relay/".toList ++
          (if m.ServerName = [] then m.ip else m.ServerName)).head? = some c →
          isSpace c = false := by
      constructor
      · intro hmem
        simp only [List.mem_append] at hmem
        rcases hmem with (h | h) | h
        · exact hr1 h
        · exact absurd h (by decide)
        · exact hnm.1 h
      · intro c hc
        cases hrn : r.Nodestr with
        | nil =>
          rw [hrn] at hc
          have : c = '/' := by
            have h0 : some '/' = some c := hc
            exact (Option.some.inj h0).symm
          subst this
          decide
        | cons a rest =>
          rw [hrn] at hc hr2
          simp only [List.cons_append, List.head?_cons, Option.some.injEq] at hc
          subst hc
          exact hr2 _ rfl
    rw [(newNode_ok_inv cfg _ n hnew).2]
    exact address_clean _ _ _ hsn hp
  · intro h
    cases hr : m.relayServer with
    | none => simp [Myself.IsRelayed, hr] at h
    | some r => exact ⟨r, rfl⟩
  · intro hr
    rw [hr] at hnew
    rw [(newNode_ok_inv cfg _ n hnew).2]
    exact address_clean _ _ _ hnm hp
  · simp only [Myself.Nodestr, hsucc]
  · simp only [Myself.toxstring, hsucc, Node.toxstring]

/-- C19 at a relayed node. -/
theorem toNode_nodestr_witness :
    Myself.toNode (some exampleCfg) relayedMyself =
      .returns ⟨"peer.example:8000/server.cgi/relay/me.example:8000/server.cgi".toList,
        false⟩ ∧
    relayedMyself.IsRelayed = true ∧
    Myself.Nodestr (some exampleCfg) relayedMyself =
      .returns "peer.example:8000/server.cgi/relay/me.example:8000/server.cgi".toList ∧
    Myself.toxstring (some exampleCfg) relayedMyself =
      .returns (Replace
        "peer.example:8000/server.cgi/relay/me.example:8000/server.cgi".toList '/' '+') :=
  ⟨by decide, by decide,
    (toNode_nodestr exampleCfg relayedMyself
      ⟨"peer.example:8000/server.cgi/relay/me.example:8000/server.cgi".toList, false⟩
      (by decide) (by decide) (by decide) (by decide)
      (fun r h => by
        have hr : examplePeer = r := Option.some.inj h
        subst hr
        exact ⟨examplePeer.Nodestr, by decide⟩)).2.2.2⟩

/-! ## The relay task -/

/-- The four ways one turn of the inner loop goes: the node is marked and
skipped, the attempt fails, the tunnel opens and closes, or the tunnel opens and
never closes. -/
theorem rangeNodes_cases (env : RelayEnv) (p : Nat) (rest : List Nat) (success : Bool)
    (st : RelayState) :
    ((st.peers p).cannotRelay = true ∧
      rangeNodes env (p :: rest) success st = rangeNodes env rest success st) ∨
    ((st.peers p).cannotRelay = false ∧
      env.HandleClient st.clock (relayURL (st.peers p)) (relayOrigin st.myself) = false ∧
      rangeNodes env (p :: rest) success st =
        { rangeNodes env rest success (st.afterFail p) with
          events := .attempt p (relayURL (st.peers p)) (relayOrigin st.myself) ::
            .failed p :: (rangeNodes env rest success (st.afterFail p)).events }) ∨
    ((st.peers p).cannotRelay = false ∧
      env.HandleClient st.clock (relayURL (st.peers p)) (relayOrigin st.myself) = true ∧
      env.Closes st.clock = true ∧
      rangeNodes env (p :: rest) success st =
        { rangeNodes env rest true (st.afterOpen p).afterClose with
          events := .attempt p (relayURL (st.peers p)) (relayOrigin st.myself) ::
            .attach p :: .detach p ::
            (rangeNodes env rest true (st.afterOpen p).afterClose).events }) ∨
    ((st.peers p).cannotRelay = false ∧
      env.HandleClient st.clock (relayURL (st.peers p)) (relayOrigin st.myself) = true ∧
      env.Closes st.clock = false ∧
      rangeNodes env (p :: rest) success st =
        { events := [.attempt p (relayURL (st.peers p)) (relayOrigin st.myself), .attach p],
          state := st.afterOpen p, success := true, blocked := true }) := by
  cases hf : (st.peers p).cannotRelay with
  | true => exact Or.inl ⟨rfl, by simp [rangeNodes, hf]⟩
  | false =>
    cases hh : env.HandleClient st.clock (relayURL (st.peers p)) (relayOrigin st.myself) with
    | false => exact Or.inr (Or.inl ⟨rfl, rfl, by simp [rangeNodes, hf, hh]⟩)
    | true =>
      cases hc : env.Closes st.clock with
      | true => exact Or.inr (Or.inr (Or.inl ⟨rfl, rfl, rfl, by simp [rangeNodes, hf, hh, hc]⟩))
      | false => exact Or.inr (Or.inr (Or.inr ⟨rfl, rfl, rfl, by simp [rangeNodes, hf, hh, hc]⟩))

/-- The variable `success` at the end of the inner loop: it was true at the
start, or a tunnel was opened. -/
theorem rangeNodes_success (env : RelayEnv) (sample : List Nat) :
    ∀ (success : Bool) (st : RelayState),
      ((rangeNodes env sample success st).success = true ↔
        (success = true ∨ ∃ p, RelayEvent.attach p ∈ (rangeNodes env sample success st).events)) := by
  induction sample with
  | nil => intro success st; simp [rangeNodes]
  | cons p rest ih =>
    intro success st
    rcases rangeNodes_cases env p rest success st with
      ⟨-, h⟩ | ⟨-, -, h⟩ | ⟨-, -, -, h⟩ | ⟨-, -, -, h⟩
    · rw [h]
      exact ih success st
    · rw [h]
      simp only [ih success (st.afterFail p), List.mem_cons, false_or, reduceCtorEq]
    · rw [h]
      simp only [ih true (st.afterOpen p).afterClose, List.mem_cons, true_or, true_iff]
      exact Or.inr ⟨p, Or.inr (Or.inl rfl)⟩
    · rw [h]
      simp only [true_iff]
      exact Or.inr ⟨p, by simp⟩

/-- A task parked on an open tunnel has `success` set. -/
theorem rangeNodes_blocked (env : RelayEnv) (sample : List Nat) :
    ∀ (success : Bool) (st : RelayState),
      (rangeNodes env sample success st).blocked = true →
        (rangeNodes env sample success st).success = true := by
  induction sample with
  | nil => intro success st h; simp [rangeNodes] at h
  | cons p rest ih =>
    intro success st
    rcases rangeNodes_cases env p rest success st with
      ⟨-, h⟩ | ⟨-, -, h⟩ | ⟨-, -, -, h⟩ | ⟨-, -, -, h⟩
    · rw [h]
      exact ih success st
    · rw [h]
      exact ih success (st.afterFail p)
    · rw [h]
      exact ih true (st.afterOpen p).afterClose
    · rw [h]
      intro _
      rfl

/-- The inner loop neither sleeps nor samples. -/
theorem rangeNodes_no_sleep (env : RelayEnv) (sample : List Nat) :
    ∀ (success : Bool) (st : RelayState),
      RelayEvent.sleep ∉ (rangeNodes env sample success st).events ∧
      ∀ l, RelayEvent.sample l ∉ (rangeNodes env sample success st).events := by
  induction sample with
  | nil => intro success st; simp [rangeNodes]
  | cons p rest ih =>
    intro success st
    rcases rangeNodes_cases env p rest success st with
      ⟨-, h⟩ | ⟨-, -, h⟩ | ⟨-, -, -, h⟩ | ⟨-, -, -, h⟩
    · rw [h]
      exact ih success st
    · rw [h]
      have := ih success (st.afterFail p)
      simp [this.1, this.2]
    · rw [h]
      have := ih true (st.afterOpen p).afterClose
      simp [this.1, this.2]
    · rw [h]
      simp

/-- A tunnel that is closed was opened. -/
theorem rangeNodes_detach (env : RelayEnv) (sample : List Nat) :
    ∀ (success : Bool) (st : RelayState) (q : Nat),
      RelayEvent.detach q ∈ (rangeNodes env sample success st).events →
        RelayEvent.attach q ∈ (rangeNodes env sample success st).events := by
  induction sample with
  | nil => intro success st q h; simp [rangeNodes] at h
  | cons p rest ih =>
    intro success st q
    rcases rangeNodes_cases env p rest success st with
      ⟨-, h⟩ | ⟨-, -, h⟩ | ⟨-, -, -, h⟩ | ⟨-, -, -, h⟩
    · rw [h]
      exact ih success st q
    · rw [h]
      intro hq
      simp only [List.mem_cons, reduceCtorEq, false_or] at hq ⊢
      exact ih success (st.afterFail p) q hq
    · rw [h]
      intro hq
      simp only [List.mem_cons, reduceCtorEq, false_or, RelayEvent.detach.injEq,
        RelayEvent.attach.injEq] at hq ⊢
      rcases hq with hq | hq
      · exact Or.inl hq
      · exact Or.inr (ih true (st.afterOpen p).afterClose q hq)
    · rw [h]
      intro hq
      simp at hq

/-- No node whose flag is set in a sample: the inner loop makes no attempt. -/
theorem rangeNodes_all_marked (env : RelayEnv) (sample : List Nat) :
    ∀ (success : Bool) (st : RelayState),
      (∀ p ∈ sample, (st.peers p).cannotRelay = true) →
        rangeNodes env sample success st =
          { events := [], state := st, success := success, blocked := false } := by
  induction sample with
  | nil => intro success st _; rfl
  | cons p rest ih =>
    intro success st hall
    have hp := hall p (List.mem_cons_self _ _)
    simp only [rangeNodes, hp, if_true]
    exact ih success st (fun q hq => hall q (List.mem_cons_of_mem _ hq))

/-- The events of a pass: the sample, the events of the inner loop, and a sleep
when the loop ended with `success` false. -/
theorem relayPass_events (env : RelayEnv) (pass : Nat) (st : RelayState) :
    (relayPass env pass st).events =
      RelayEvent.sample (env.Random pass) ::
        (rangeNodes env (env.Random pass) false st).events ++
        (if (rangeNodes env (env.Random pass) false st).success = true then []
         else [RelayEvent.sleep]) := by
  unfold relayPass
  simp only
  cases hb : (rangeNodes env (env.Random pass) false st).blocked with
  | true =>
    have hs := rangeNodes_blocked env _ false st hb
    simp [hs]
  | false =>
    cases hs : (rangeNodes env (env.Random pass) false st).success <;> simp

/-- C16: in one pass of the relay task the task sleeps exactly when no tunnel
was opened in the pass, and the sleep is the last thing of the pass; so it
sleeps when every node of the sample is marked `cannotRelay` and when every
attempt fails, and it does not sleep when a tunnel was opened. -/
theorem relayPass_sleep (env : RelayEnv) (pass : Nat) (st : RelayState) :
    (RelayEvent.sleep ∈ (relayPass env pass st).events ↔
      ∀ p, RelayEvent.attach p ∉ (relayPass env pass st).events) ∧
    (RelayEvent.sleep ∈ (relayPass env pass st).events →
      (relayPass env pass st).events.getLast? = some RelayEvent.sleep) ∧
    ((∀ p ∈ env.Random pass, (st.peers p).cannotRelay = true) →
      (relayPass env pass st).events = [.sample (env.Random pass), .sleep]) ∧
    ((∀ k url origin, env.HandleClient k url origin = false) →
      RelayEvent.sleep ∈ (relayPass env pass st).events) := by
  have hev := relayPass_events env pass st
  have hsucc := rangeNodes_success env (env.Random pass) false st
  have hno := rangeNodes_no_sleep env (env.Random pass) false st
  have hiff : RelayEvent.sleep ∈ (relayPass env pass st).events ↔
      ∀ p, RelayEvent.attach p ∉ (relayPass env pass st).events := by
    rw [hev]
    cases hs : (rangeNodes env (env.Random pass) false st).success with
    | true =>
      obtain ⟨p, hp⟩ := (hsucc.mp hs).resolve_left (by simp)
      simp only [if_true, List.append_nil, List.mem_cons, reduceCtorEq, false_or, hno.1,
        false_iff, not_forall, not_not]
      exact ⟨p, hp⟩
    | false =>
      have hnone : ∀ p, RelayEvent.attach p ∉
          (rangeNodes env (env.Random pass) false st).events := by
        intro p hp
        have := hsucc.mpr (Or.inr ⟨p, hp⟩)
        rw [hs] at this
        exact Bool.noConfusion this
      simp [hnone]
  refine ⟨hiff, ?_, ?_, ?_⟩
  · intro hsl
    rw [hev] at hsl ⊢
    cases hs : (rangeNodes env (env.Random pass) false st).success with
    | true =>
      rw [hs] at hsl
      simp [hno.1] at hsl
    | false =>
      simp only [Bool.false_eq_true, if_false]
      rw [List.getLast?_append_of_ne_nil _ (by simp)]
      rfl
  · intro hall
    rw [hev, rangeNodes_all_marked env _ false st hall]
    simp
  · intro hfail
    apply hiff.mpr
    intro p hp
    rw [hev] at hp
    have hp2 : RelayEvent.attach p ∈ (rangeNodes env (env.Random pass) false st).events := by
      cases hs : (rangeNodes env (env.Random pass) false st).success with
      | true => simpa [hs] using hp
      | false => simpa [hs] using hp
    have key : ∀ (sample : List Nat) (success : Bool) (st : RelayState) (q : Nat),
        RelayEvent.attach q ∉ (rangeNodes env sample success st).events := by
      intro sample
      induction sample with
      | nil => intro success st q; simp [rangeNodes]
      | cons a rest ih =>
        intro success st q
        rcases rangeNodes_cases env a rest success st with
          ⟨-, h⟩ | ⟨-, -, h⟩ | ⟨-, h1, -, -⟩ | ⟨-, h1, -, -⟩
        · rw [h]
          exact ih success st q
        · rw [h]
          simp only [List.mem_cons, reduceCtorEq, false_or]
          exact ih success (st.afterFail a) q
        · rw [hfail] at h1
          exact Bool.noConfusion h1
        · rw [hfail] at h1
          exact Bool.noConfusion h1
    exact key _ _ _ _ hp2

/-- C16 on the examples: a pass over peers that are all marked sleeps, and the
first pass of the example, in which a tunnel opens, does not. -/
theorem relayPass_sleep_witness :
    (relayPass exampleRelayEnv 0
      { exampleRelayState with
        peers := fun i => { Nodestr := 'p' :: Itoa i, cannotRelay := true } }).events =
      [.sample [0, 1], .sleep] ∧
    RelayEvent.sleep ∉ (relayPass exampleRelayEnv 0 exampleRelayState).events :=
  ⟨(relayPass_sleep exampleRelayEnv 0
      { exampleRelayState with
        peers := fun i => { Nodestr := 'p' :: Itoa i, cannotRelay := true } }).2.2.1
      (fun _ _ => rfl),
    fun h => (relayPass_sleep exampleRelayEnv 0 exampleRelayState).1.mp h 0 (by decide)⟩

theorem respects_of_no_attempt (f : Nat → Bool) (evs : List RelayEvent)
    (h : ∀ p url origin, RelayEvent.attempt p url origin ∉ evs) :
    attemptsRespectFlags f evs := by
  intro a p url origin b heq
  exact absurd (by rw [heq]; simp) (h p url origin)

theorem respects_congr (f g : Nat → Bool) (evs : List RelayEvent) (hfg : ∀ q, f q = g q)
    (h : attemptsRespectFlags f evs) : attemptsRespectFlags g evs := by
  intro a p url origin b heq
  rw [← hfg p]
  exact h a p url origin b heq

theorem respects_cons_attempt (f : Nat → Bool) (p : Nat) (url origin : Str)
    (evs : List RelayEvent) (hp : f p = false) (h : attemptsRespectFlags f evs) :
    attemptsRespectFlags f (.attempt p url origin :: evs) := by
  intro a q u o b heq
  cases a with
  | nil =>
    simp only [List.nil_append, List.cons.injEq, RelayEvent.attempt.injEq] at heq
    obtain ⟨⟨rfl, -, -⟩, -⟩ := heq
    exact ⟨hp, by simp⟩
  | cons x a =>
    simp only [List.cons_append, List.cons.injEq] at heq
    obtain ⟨rfl, heq⟩ := heq
    obtain ⟨h1, h2⟩ := h a q u o b heq
    exact ⟨h1, by simp [h2]⟩

theorem respects_cons_failed (f : Nat → Bool) (p : Nat) (evs : List RelayEvent)
    (h : attemptsRespectFlags (fun q => f q || decide (q = p)) evs) :
    attemptsRespectFlags f (.failed p :: evs) := by
  intro a q u o b heq
  cases a with
  | nil => simp at heq
  | cons x a =>
    simp only [List.cons_append, List.cons.injEq] at heq
    obtain ⟨rfl, heq⟩ := heq
    obtain ⟨h1, h2⟩ := h a q u o b heq
    simp only [Bool.or_eq_false_iff, decide_eq_false_iff_not] at h1
    refine ⟨h1.1, ?_⟩
    simp only [List.mem_cons, RelayEvent.failed.injEq, not_or]
    exact ⟨h1.2, h2⟩

theorem respects_cons_other (f : Nat → Bool) (e : RelayEvent) (evs : List RelayEvent)
    (he1 : ∀ p url origin, e ≠ .attempt p url origin) (he2 : ∀ p, e ≠ .failed p)
    (h : attemptsRespectFlags f evs) : attemptsRespectFlags f (e :: evs) := by
  intro a q u o b heq
  cases a with
  | nil =>
    simp only [List.nil_append, List.cons.injEq] at heq
    exact absurd heq.1 (he1 q u o)
  | cons x a =>
    simp only [List.cons_append, List.cons.injEq] at heq
    obtain ⟨rfl, heq⟩ := heq
    obtain ⟨h1, h2⟩ := h a q u o b heq
    refine ⟨h1, ?_⟩
    simp only [List.mem_cons, not_or]
    exact ⟨fun e' => he2 q e'.symm, h2⟩

theorem respects_append (f : Nat → Bool) (e1 e2 : List RelayEvent)
    (h1 : attemptsRespectFlags f e1)
    (h2 : attemptsRespectFlags (fun q => f q || decide (RelayEvent.failed q ∈ e1)) e2) :
    attemptsRespectFlags f (e1 ++ e2) := by
  intro a q u o b heq
  rcases List.append_eq_append_iff.mp heq with ⟨c, hc1, hc2⟩ | ⟨c, hc1, hc2⟩
  · obtain ⟨h3, h4⟩ := h2 c q u o b hc2
    simp only [Bool.or_eq_false_iff, decide_eq_false_iff_not] at h3
    refine ⟨h3.1, ?_⟩
    rw [hc1]
    simp only [List.mem_append, not_or]
    exact ⟨h3.2, h4⟩
  · cases c with
    | nil =>
      simp only [List.nil_append] at hc2
      simp only [List.append_nil] at hc1
      obtain ⟨h3, -⟩ := h2 [] q u o b (by simpa using hc2.symm)
      simp only [Bool.or_eq_false_iff, decide_eq_false_iff_not] at h3
      rw [← hc1]
      exact h3
    | cons x c =>
      simp only [List.cons_append, List.cons.injEq] at hc2
      obtain ⟨rfl, -⟩ := hc2
      exact h1 a q u o c hc1

/-- The flags after the inner loop: a flag is set when it was set before or
an attempt on the node failed in the loop. -/
theorem rangeNodes_flags (env : RelayEnv) (sample : List Nat) :
    ∀ (success : Bool) (st : RelayState) (q : Nat),
      ((rangeNodes env sample success st).state.peers q).cannotRelay =
        ((st.peers q).cannotRelay ||
          decide (RelayEvent.failed q ∈ (rangeNodes env sample success st).events)) := by
  induction sample with
  | nil => intro success st q; simp [rangeNodes]
  | cons p rest ih =>
    intro success st q
    rcases rangeNodes_cases env p rest success st with
      ⟨-, h⟩ | ⟨-, -, h⟩ | ⟨-, -, -, h⟩ | ⟨-, -, -, h⟩
    · rw [h]
      exact ih success st q
    · rw [h]
      simp only [ih success (st.afterFail p) q, List.mem_cons, reduceCtorEq, false_or,
        RelayEvent.failed.injEq]
      by_cases hq : q = p
      · subst hq
        simp [RelayState.afterFail]
      · simp [RelayState.afterFail, Function.update, hq]
    · rw [h]
      simp only [ih true (st.afterOpen p).afterClose q, List.mem_cons, reduceCtorEq, false_or]
      rfl
    · rw [h]
      simp [RelayState.afterOpen]

theorem rangeNodes_respects (env : RelayEnv) (sample : List Nat) :
    ∀ (success : Bool) (st : RelayState),
      attemptsRespectFlags (fun q => (st.peers q).cannotRelay)
        (rangeNodes env sample success st).events := by
  induction sample with
  | nil =>
    intro success st
    exact respects_of_no_attempt _ _ (by simp [rangeNodes])
  | cons p rest ih =>
    intro success st
    rcases rangeNodes_cases env p rest success st with
      ⟨-, h⟩ | ⟨hf, -, h⟩ | ⟨hf, -, -, h⟩ | ⟨hf, -, -, h⟩
    · rw [h]
      exact ih success st
    · rw [h]
      apply respects_cons_attempt _ _ _ _ _ hf
      apply respects_cons_failed
      apply respects_congr _ _ _ _ (ih success (st.afterFail p))
      intro q
      by_cases hq : q = p
      · subst hq
        simp [RelayState.afterFail]
      · simp [RelayState.afterFail, Function.update, hq]
    · rw [h]
      apply respects_cons_attempt _ _ _ _ _ hf
      apply respects_cons_other _ _ _ (by simp) (by simp)
      apply respects_cons_other _ _ _ (by simp) (by simp)
      exact ih true (st.afterOpen p).afterClose
    · rw [h]
      apply respects_cons_attempt _ _ _ _ _ hf
      exact respects_of_no_attempt _ _ (by simp)

theorem relayPass_state (env : RelayEnv) (pass : Nat) (st : RelayState) :
    (relayPass env pass st).state = (rangeNodes env (env.Random pass) false st).state ∧
    (relayPass env pass st).blocked = (rangeNodes env (env.Random pass) false st).blocked := by
  unfold relayPass
  simp only
  split
  · exact ⟨rfl, rfl⟩
  · split <;> exact ⟨rfl, rfl⟩

theorem relayPass_failed (env : RelayEnv) (pass : Nat) (st : RelayState) (q : Nat) :
    RelayEvent.failed q ∈ (relayPass env pass st).events ↔
      RelayEvent.failed q ∈ (rangeNodes env (env.Random pass) false st).events := by
  rw [relayPass_events]
  split <;> simp

theorem relayPass_flags (env : RelayEnv) (pass : Nat) (st : RelayState) (q : Nat) :
    ((relayPass env pass st).state.peers q).cannotRelay =
      ((st.peers q).cannotRelay ||
        decide (RelayEvent.failed q ∈ (relayPass env pass st).events)) := by
  rw [(relayPass_state env pass st).1, rangeNodes_flags]
  congr 1
  exact decide_eq_decide.mpr (relayPass_failed env pass st q).symm

theorem relayPass_respects (env : RelayEnv) (pass : Nat) (st : RelayState) :
    attemptsRespectFlags (fun q => (st.peers q).cannotRelay) (relayPass env pass st).events := by
  rw [relayPass_events]
  apply respects_append
  · exact respects_cons_other _ _ _ (by simp) (by simp) (rangeNodes_respects env _ false st)
  · apply respects_of_no_attempt
    intro p url origin
    split <;> simp

theorem TryRelay_flags (env : RelayEnv) (passes : Nat) :
    ∀ (pass : Nat) (st : RelayState) (q : Nat),
      ((TryRelay env passes pass st).state.peers q).cannotRelay =
        ((st.peers q).cannotRelay ||
          decide (RelayEvent.failed q ∈ (TryRelay env passes pass st).events)) := by
  induction passes with
  | zero => intro pass st q; simp [TryRelay]
  | succ k ih =>
    intro pass st q
    simp only [TryRelay]
    split
    · exact relayPass_flags env pass st q
    · simp only [ih (pass + 1) (relayPass env pass st).state q, relayPass_flags env pass st q,
        List.mem_append, Bool.decide_or, Bool.or_assoc]

theorem TryRelay_respects (env : RelayEnv) (passes : Nat) :
    ∀ (pass : Nat) (st : RelayState),
      attemptsRespectFlags (fun q => (st.peers q).cannotRelay)
        (TryRelay env passes pass st).events := by
  induction passes with
  | zero =>
    intro pass st
    exact respects_of_no_attempt _ _ (by simp [TryRelay])
  | succ k ih =>
    intro pass st
    simp only [TryRelay]
    split
    · exact relayPass_respects env pass st
    · apply respects_append _ _ _ (relayPass_respects env pass st)
      apply respects_congr _ _ _ _ (ih (pass + 1) (relayPass env pass st).state)
      intro q
      exact relayPass_flags env pass st q

/-- C17: along any run of the relay task, every tunnel-open attempt is made on
a node whose `cannotRelay` flag was not set at the start and has not been set
by an earlier failure; a node whose attempt failed has the flag set at the end,
and is marked at once when the attempt fails; and a flag that is set stays
set. -/
theorem cannotRelay_sticky (env : RelayEnv) (passes pass : Nat) (st : RelayState) :
    (∀ a p url origin b,
      (TryRelay env passes pass st).events = a ++ .attempt p url origin :: b →
        (st.peers p).cannotRelay = false ∧ RelayEvent.failed p ∉ a) ∧
    (∀ q, RelayEvent.failed q ∈ (TryRelay env passes pass st).events →
      ((TryRelay env passes pass st).state.peers q).cannotRelay = true) ∧
    (∀ q, (st.peers q).cannotRelay = true →
      ((TryRelay env passes pass st).state.peers q).cannotRelay = true) ∧
    (∀ (p : Nat) (rest : List Nat) (success : Bool) (s : RelayState),
      (s.peers p).cannotRelay = false →
      env.HandleClient s.clock (relayURL (s.peers p)) (relayOrigin s.myself) = false →
      ((s.afterFail p).peers p).cannotRelay = true ∧
      ((rangeNodes env (p :: rest) success s).state.peers p).cannotRelay = true) := by
  refine ⟨TryRelay_respects env passes pass st, ?_, ?_, ?_⟩
  · intro q hq
    rw [TryRelay_flags]
    simp [hq]
  · intro q hq
    rw [TryRelay_flags]
    simp [hq]
  · intro p rest success s hf hh
    have h1 : ((s.afterFail p).peers p).cannotRelay = true := by
      simp [RelayState.afterFail]
    refine ⟨h1, ?_⟩
    rcases rangeNodes_cases env p rest success s with
      ⟨h, -⟩ | ⟨-, -, h⟩ | ⟨-, h, -⟩ | ⟨-, h, -⟩
    · rw [hf] at h
      exact Bool.noConfusion h
    · rw [h]
      simp only [rangeNodes_flags env rest success (s.afterFail p) p, h1, Bool.true_or]
    · rw [hh] at h
      exact Bool.noConfusion h
    · rw [hh] at h
      exact Bool.noConfusion h

/-- C17 on the example: in the first pass the attempt on the node at 1 fails,
and the node is marked at the end. -/
theorem cannotRelay_sticky_witness :
    RelayEvent.failed 1 ∈ (TryRelay exampleRelayEnv 1 0 exampleRelayState).events ∧
    ((TryRelay exampleRelayEnv 1 0 exampleRelayState).state.peers 1).cannotRelay = true :=
  ⟨by decide, (cannotRelay_sticky exampleRelayEnv 1 0 exampleRelayState).2.1 1 (by decide)⟩

/-- C18, as amended: when the tunnel to a node opens and later reports its
closure, `relayServer` is that node while the tunnel is open and is cleared at
the closure, and the task then goes on with the remaining nodes of the same
sample, `success` being true; a pass in which a tunnel was closed has no sleep
in it, so that the next sample is drawn without delay once the sample is
exhausted. -/
theorem relay_closure_continues (env : RelayEnv) (p : Nat) (rest : List Nat)
    (success : Bool) (st : RelayState)
    (hflag : (st.peers p).cannotRelay = false)
    (hopen : env.HandleClient st.clock (relayURL (st.peers p)) (relayOrigin st.myself) = true)
    (hclose : env.Closes st.clock = true) :
    (rangeNodes env (p :: rest) success st).events =
      .attempt p (relayURL (st.peers p)) (relayOrigin st.myself) :: .attach p :: .detach p ::
        (rangeNodes env rest true (st.afterOpen p).afterClose).events ∧
    (st.afterOpen p).myself.relayServer = some (st.peers p) ∧
    (st.afterOpen p).afterClose.myself.relayServer = none ∧
    (∀ (pass : Nat) (s : RelayState),
      (∃ q, RelayEvent.detach q ∈ (relayPass env pass s).events) →
        RelayEvent.sleep ∉ (relayPass env pass s).events) := by
  refine ⟨?_, rfl, rfl, ?_⟩
  · rcases rangeNodes_cases env p rest success st with
      ⟨h, -⟩ | ⟨-, h, -⟩ | ⟨-, -, -, h⟩ | ⟨-, -, h, -⟩
    · rw [hflag] at h
      exact Bool.noConfusion h
    · rw [hopen] at h
      exact Bool.noConfusion h
    · rw [h]
    · rw [hclose] at h
      exact Bool.noConfusion h
  · rintro pass s ⟨q, hq⟩ hsl
    have hev := relayPass_events env pass s
    have hq2 : RelayEvent.detach q ∈ (rangeNodes env (env.Random pass) false s).events := by
      rw [hev] at hq
      cases hs : (rangeNodes env (env.Random pass) false s).success with
      | true => simpa [hs] using hq
      | false => simpa [hs] using hq
    have hatt := rangeNodes_detach env _ false s q hq2
    have hsucc := (rangeNodes_success env (env.Random pass) false s).mpr (Or.inr ⟨q, hatt⟩)
    rw [hev, hsucc] at hsl
    simp [(rangeNodes_no_sleep env (env.Random pass) false s).1] at hsl

/-- C18, as amended, on the example: the tunnel to the node at 0 opens and
closes, and the node at 1 of the same sample is tried next. -/
theorem relay_closure_continues_witness :
    (exampleRelayState.peers 0).cannotRelay = false ∧
    exampleRelayEnv.Closes exampleRelayState.clock = true ∧
    (rangeNodes exampleRelayEnv (0 :: [1]) false exampleRelayState).events =
      .attempt 0 (relayURL (exampleRelayState.peers 0)) (relayOrigin exampleRelayState.myself) ::
        .attach 0 :: .detach 0 ::
        (rangeNodes exampleRelayEnv [1] true
          (exampleRelayState.afterOpen 0).afterClose).events :=
  ⟨by decide, by decide,
    (relay_closure_continues exampleRelayEnv 0 [1] false exampleRelayState
      (by decide) (by decide) (by decide)).1⟩

/-- C18, the claim as written fails: in the first pass of the example the
tunnel to the node at 0 opens and closes, and what the task does next is an
attempt on the node at 1 of the old sample, not a new sample. -/
theorem relay_closure_counterexample :
    (relayPass exampleRelayEnv 0 exampleRelayState).events =
      [.sample [0, 1],
        .attempt 0 (relayURL (exampleRelayState.peers 0)) (relayOrigin exampleRelayState.myself),
        .attach 0, .detach 0,
        .attempt 1 (relayURL (exampleRelayState.peers 1)) (relayOrigin exampleRelayState.myself),
        .failed 1] := by
  decide

/-! ## `cfg/config.go` -/

theorem wrapInt64_of_range (x : Int) (h1 : -2 ^ 63 ≤ x) (h2 : x < 2 ^ 63) :
    wrapInt64 x = x := by
  unfold wrapInt64
  omega

theorem wrapInt64_range (x : Int) : -2 ^ 63 ≤ wrapInt64 x ∧ wrapInt64 x < 2 ^ 63 := by
  unfold wrapInt64
  omega

theorem wrapInt64_add (a b : Int) : wrapInt64 (wrapInt64 a + b) = wrapInt64 (a + b) := by
  unfold wrapInt64
  omega

/-- A direct call of `initVariables` on ini data in which `save_removed` is
not 0 and does not exceed `sync_range`: the last statement adds one to
`SyncRange` and leaves `SaveRemoved` as it is.  `init` never passes such data,
see `loadFiles_unchanged`. -/
theorem initVariables_sync_range (now : Nat → Int) (i : ThreadIni) (vars : ThreadVars)
    (hret : initVariables now i = .returns vars)
    (h0 : getInt64Value i.save_removed (50 * 24 * 60 * 60) ≠ 0)
    (hle : getInt64Value i.save_removed (50 * 24 * 60 * 60) ≤
      getInt64Value i.sync_range (10 * 24 * 60 * 60))
    (hmin : -2 ^ 63 ≤ getInt64Value i.sync_range (10 * 24 * 60 * 60))
    (hnow : now 1 < 2 ^ 63 - 1) :
    vars.SaveRemoved = getInt64Value i.save_removed (50 * 24 * 60 * 60) ∧
    vars.SyncRange = getInt64Value i.sync_range (10 * 24 * 60 * 60) + 1 ∧
    vars.SaveRemoved ≠ 0 ∧ ¬ vars.SaveRemoved > vars.SyncRange := by
  unfold initVariables at hret
  simp only at hret
  split at hret
  · exact absurd hret (by simp)
  · split at hret
    · exact absurd hret (by simp)
    · rename_i hsync
      split at hret
      · exact absurd hret (by simp)
      · simp only [Outcome.returns.injEq] at hret
        subst hret
        have hrange : wrapInt64 (getInt64Value i.sync_range (10 * 24 * 60 * 60) + 1) =
            getInt64Value i.sync_range (10 * 24 * 60 * 60) + 1 :=
          wrapInt64_of_range _ (by omega) (by omega)
        refine ⟨rfl, ?_, h0, ?_⟩
        · simp only [if_pos (And.intro h0 hle), hrange]
        · simp only [if_pos (And.intro h0 hle), hrange]
          omega

/-- The direct call for `sync_range = 10` and `save_removed = 5`: `SyncRange`
becomes 11 and `SaveRemoved` stays 5. -/
theorem initVariables_sync_range_witness :
    initVariables (fun _ => 1446595200) exampleIni =
      .returns { SaveRecord := 0, SaveSize := 1, GetRange := 2678400, SyncRange := 11,
                 SaveRemoved := 5 } ∧
    (5 : Int) ≠ 0 ∧ ¬ (5 : Int) > 11 :=
  ⟨by decide,
    (initVariables_sync_range (fun _ => 1446595200) exampleIni
      { SaveRecord := 0, SaveSize := 1, GetRange := 2678400, SyncRange := 11, SaveRemoved := 5 }
      (by decide) (by decide) (by decide) (by decide) (by decide)).2.2⟩

/-- `os.Stat` gives a nil `FileInfo` with every error: then the loop of `init`
never reaches `i.Append`, and the ini data stays as it was. -/
theorem loadFiles_unchanged (env : ConfigEnv)
    (hstat : ∀ f, (env.Stat f).err = true → (env.Stat f).info = none) (files : List Str) :
    ∀ i j : ThreadIni, loadFiles env files i = .returns j → j = i := by
  induction files with
  | nil =>
    intro i j h
    simp only [loadFiles, Outcome.returns.injEq] at h
    exact h.symm
  | cons f rest ih =>
    intro i j h
    cases he : (env.Stat f).err with
    | false =>
      simp only [loadFiles, he, Bool.false_eq_true, if_false] at h
      exact ih i j h
    | true =>
      simp only [loadFiles, he, hstat f he, if_true] at h
      exact absurd h (by simp)

/-- A file of the list that `os.Stat` does not find makes `init` panic. -/
theorem init_missing_file (env : ConfigEnv)
    (h : env.Stat "file/saku.ini".toList = { info := none, err := true }) :
    init env = .panics := by
  have hl : loadFiles env (configFiles env.home) emptyIni = .panics := by
    unfold configFiles
    rw [List.cons_append]
    simp only [loadFiles, h, if_true]
  simp only [init, hl]

/-- On ini data in which `save_removed` is 0 or exceeds `sync_range`,
`initVariables` leaves the two values as they are. -/
theorem initVariables_keeps (now : Nat → Int) (i : ThreadIni) (vars : ThreadVars)
    (hret : initVariables now i = .returns vars)
    (h : getInt64Value i.save_removed (50 * 24 * 60 * 60) = 0 ∨
      getInt64Value i.save_removed (50 * 24 * 60 * 60) >
        getInt64Value i.sync_range (10 * 24 * 60 * 60)) :
    vars.SaveRemoved = getInt64Value i.save_removed (50 * 24 * 60 * 60) ∧
    vars.SyncRange = getInt64Value i.sync_range (10 * 24 * 60 * 60) := by
  unfold initVariables at hret
  simp only at hret
  split at hret
  · exact absurd hret (by simp)
  · split at hret
    · exact absurd hret (by simp)
    · split at hret
      · exact absurd hret (by simp)
      · simp only [Outcome.returns.injEq] at hret
        subst hret
        refine ⟨rfl, ?_⟩
        have hc : ¬ (getInt64Value i.save_removed (50 * 24 * 60 * 60) ≠ 0 ∧
            getInt64Value i.save_removed (50 * 24 * 60 * 60) ≤
              getInt64Value i.sync_range (10 * 24 * 60 * 60)) := by
          rintro ⟨h1, h2⟩
          rcases h with h | h
          · exact h1 h
          · omega
        simp only [if_neg hc]

/-- C23: whatever the ini files hold, whenever `init` has called
`initVariables` and it has returned, `SaveRemoved` is 0 or exceeds
`SyncRange`.  `init` passes every file over (`os.Stat` giving a nil `FileInfo`
with every error), so `initVariables` reads the defaults, `sync_range` of 10
days and `save_removed` of 50 days; and on any ini data in which `save_removed`
is 0 or exceeds `sync_range`, `initVariables` returns with the same relation. -/
theorem init_save_removed (env : ConfigEnv) (vars : ThreadVars)
    (hstat : ∀ f, (env.Stat f).err = true → (env.Stat f).info = none)
    (hret : init env = .returns vars) :
    (vars.SaveRemoved = 0 ∨ vars.SaveRemoved > vars.SyncRange) ∧
    vars.SyncRange = 10 * 24 * 60 * 60 ∧ vars.SaveRemoved = 50 * 24 * 60 * 60 ∧
    initVariables env.now emptyIni = .returns vars ∧
    (∀ (i : ThreadIni) (v : ThreadVars), initVariables env.now i = .returns v →
      (getInt64Value i.save_removed (50 * 24 * 60 * 60) = 0 ∨
        getInt64Value i.save_removed (50 * 24 * 60 * 60) >
          getInt64Value i.sync_range (10 * 24 * 60 * 60)) →
      (v.SaveRemoved = 0 ∨ v.SaveRemoved > v.SyncRange)) := by
  have hcall : initVariables env.now emptyIni = .returns vars := by
    unfold init at hret
    split at hret
    · rename_i i hi
      have := loadFiles_unchanged env hstat _ emptyIni i hi
      rw [this] at hret
      exact hret
    · exact absurd hret (by simp)
    · exact absurd hret (by simp)
  have hkeep := initVariables_keeps env.now emptyIni vars hcall (Or.inr (by decide))
  have h1 : vars.SaveRemoved = 50 * 24 * 60 * 60 := hkeep.1
  have h2 : vars.SyncRange = 10 * 24 * 60 * 60 := hkeep.2
  refine ⟨Or.inr (by rw [h1, h2]; decide), h2, h1, hcall, ?_⟩
  intro i v hv h
  obtain ⟨e1, e2⟩ := initVariables_keeps env.now i v hv h
  rw [e1, e2]
  exact h

/-- C23 on the example: the four files exist and set `sync_range = 10` and
`save_removed = 5`; `init` passes them over and `initVariables` returns the
defaults. -/
theorem init_save_removed_witness :
    init exampleConfigEnv =
      .returns { SaveRecord := 0, SaveSize := 1, GetRange := 2678400, SyncRange := 864000,
                 SaveRemoved := 4320000 } ∧
    ((4320000 : Int) = 0 ∨ (4320000 : Int) > 864000) :=
  ⟨by decide,
    (init_save_removed exampleConfigEnv
      { SaveRecord := 0, SaveSize := 1, GetRange := 2678400, SyncRange := 864000,
        SaveRemoved := 4320000 }
      (fun _ h => Bool.noConfusion h) (by decide)).1⟩

/-! ## `gou/mch_keylib.go` -/

/-- The loop of `setFromCache` stops at the first stamp, counted from
`firstStamp` with wrap-around, that is not a key, as soon as it is given more
turns than it needs. -/
theorem nextFreeStamp_found (keys : Int → Option Str) (i : Nat) :
    ∀ (t : Int) (fuel : Nat), -2 ^ 63 ≤ t → t < 2 ^ 63 →
      (∀ j : Nat, j < i → keys (wrapInt64 (t + j)) ≠ none) →
      keys (wrapInt64 (t + i)) = none → i < fuel →
      nextFreeStamp keys fuel t = some (wrapInt64 (t + i)) := by
  induction i with
  | zero =>
    intro t fuel h1 h2 _ hfree hfuel
    have ht : wrapInt64 (t + ((0 : Nat) : Int)) = t := by
      rw [Nat.cast_zero, add_zero]
      exact wrapInt64_of_range t h1 h2
    rw [ht] at hfree ⊢
    cases fuel with
    | zero => exact absurd hfuel (by omega)
    | succ f => simp [nextFreeStamp, hfree]
  | succ i ih =>
    intro t fuel h1 h2 htaken hfree hfuel
    cases fuel with
    | zero => exact absurd hfuel (by omega)
    | succ f =>
      have h0 : keys t ≠ none := by
        have := htaken 0 (by omega)
        rw [Nat.cast_zero, add_zero, wrapInt64_of_range t h1 h2] at this
        exact this
      have hsome : (keys t).isSome = true := Option.isSome_iff_ne_none.mpr h0
      have hstep : ∀ j : Nat, wrapInt64 (wrapInt64 (t + 1) + j) = wrapInt64 (t + ((j + 1 : Nat) : Int)) := by
        intro j
        rw [wrapInt64_add]
        congr 1
        push_cast
        ring
      simp only [nextFreeStamp, hsome, if_true]
      rw [ih (wrapInt64 (t + 1)) f (wrapInt64_range _).1 (wrapInt64_range _).2
        (fun j hj => by rw [hstep j]; exact htaken (j + 1) (by omega))
        (by rw [hstep i]; exact hfree) (by omega)]
      rw [hstep i]

/-- When some stamp of `int64` is not a key, the search from `t` with
wrap-around meets a first stamp that is not a key. -/
theorem exists_first_free (keys : Int → Option Str) (t : Int)
    (hfree : ∃ s : Int, -2 ^ 63 ≤ s ∧ s < 2 ^ 63 ∧ keys s = none) :
    ∃ i : Nat, keys (wrapInt64 (t + i)) = none ∧
      ∀ j : Nat, j < i → keys (wrapInt64 (t + j)) ≠ none := by
  obtain ⟨s, hs1, hs2, hs⟩ := hfree
  have hex : ∃ i : Nat, keys (wrapInt64 (t + i)) = none := by
    refine ⟨((s - t) % 2 ^ 64).toNat, ?_⟩
    have hw : wrapInt64 (t + (((s - t) % 2 ^ 64).toNat : Int)) = s := by
      unfold wrapInt64
      omega
    rw [hw]
    exact hs
  classical
  exact ⟨Nat.find hex, Nat.find_spec hex, fun j hj => Nat.find_min hex hj⟩

theorem setEntry_lookup (d : DatakeyTable) (s : Int) (f : Str) :
    (d.setEntry s f).datakey2filekey s = some f ∧
    (d.setEntry s f).filekey2datkey f = some s ∧
    (∀ k, k ≠ s → (d.setEntry s f).datakey2filekey k = d.datakey2filekey k) ∧
    (∀ g, g ≠ f → (d.setEntry s f).filekey2datkey g = d.filekey2datkey g) := by
  refine ⟨by simp [DatakeyTable.setEntry], by simp [DatakeyTable.setEntry], ?_, ?_⟩
  · intro k hk
    simp [DatakeyTable.setEntry, Function.update, hk]
  · intro g hg
    simp [DatakeyTable.setEntry, Function.update, hg]

theorem setFromCache_present (fuel : Nat) (now : Int) (d : DatakeyTable) (ca : cache)
    (h : d.filekey2datkey ca.Datfile ≠ none) : d.setFromCache fuel now ca = some d := by
  have hsome : (d.filekey2datkey ca.Datfile).isSome = true := Option.isSome_iff_ne_none.mpr h
  simp [DatakeyTable.setFromCache, hsome]

theorem setFromCache_absent (fuel : Nat) (now : Int) (d : DatakeyTable) (ca : cache) (s : Int)
    (h : d.filekey2datkey ca.Datfile = none)
    (hs : nextFreeStamp d.datakey2filekey fuel (firstStampOf now ca) = some s) :
    d.setFromCache fuel now ca = some (d.setEntry s ca.Datfile) := by
  simp [DatakeyTable.setFromCache, h, hs]

/-- C21, as amended: when the datfile of the cache is already a key of
`filekey2datkey`, `setFromCache` leaves the table as it is; otherwise, when
some stamp from the first stamp `t` of the cache up to the largest `int64` is
not a key of `datakey2filekey`, it terminates and sets the pair of `s` and the
datfile in both maps, `s` being the least stamp from `t` on that was not a key,
and every other entry of the two maps is as before. -/
theorem setFromCache_adds (now : Int) (d : DatakeyTable) (ca : cache) :
    (d.filekey2datkey ca.Datfile ≠ none →
      ∀ fuel, d.setFromCache fuel now ca = some d) ∧
    (d.filekey2datkey ca.Datfile = none →
      ∀ s : Int, -2 ^ 63 ≤ firstStampOf now ca → firstStampOf now ca ≤ s → s < 2 ^ 63 →
        d.datakey2filekey s = none →
        (∀ k, firstStampOf now ca ≤ k → k < s → d.datakey2filekey k ≠ none) →
        ∃ fuel0, ∀ fuel, fuel0 ≤ fuel →
          d.setFromCache fuel now ca = some (d.setEntry s ca.Datfile)) ∧
    (∀ (s : Int) (f : Str),
      (d.setEntry s f).datakey2filekey s = some f ∧
      (d.setEntry s f).filekey2datkey f = some s ∧
      (∀ k, k ≠ s → (d.setEntry s f).datakey2filekey k = d.datakey2filekey k) ∧
      (∀ g, g ≠ f → (d.setEntry s f).filekey2datkey g = d.filekey2datkey g)) := by
  refine ⟨fun h fuel => setFromCache_present fuel now d ca h, ?_, setEntry_lookup d⟩
  intro habs s ht1 hts hs2 hfree htaken
  refine ⟨(s - firstStampOf now ca).toNat + 1, ?_⟩
  intro fuel hfuel
  apply setFromCache_absent fuel now d ca s habs
  have hoff : ∀ j : Nat, j ≤ (s - firstStampOf now ca).toNat →
      wrapInt64 (firstStampOf now ca + j) = firstStampOf now ca + j := by
    intro j hj
    exact wrapInt64_of_range _ (by omega) (by omega)
  have hlast : firstStampOf now ca + (((s - firstStampOf now ca).toNat : Nat) : Int) = s := by
    omega
  have := nextFreeStamp_found d.datakey2filekey (s - firstStampOf now ca).toNat
    (firstStampOf now ca) fuel ht1 (by omega)
    (fun j hj => by
      rw [hoff j (by omega)]
      exact htaken _ (by omega) (by omega))
    (by rw [hoff _ (le_refl _), hlast]; exact hfree) (by omega)
  rw [this, hoff _ (le_refl _), hlast]

/-- C21, as amended, on the example: the stamps 7 and 8 are taken, the first
stamp of the cache is 7, and the datfile gets the stamp 9. -/
theorem setFromCache_adds_witness :
    exampleTable.filekey2datkey exampleCache.Datfile = none ∧
    firstStampOf 100 exampleCache = 7 ∧
    exampleTable.datakey2filekey 9 = none ∧
    ∃ fuel0, ∀ fuel, fuel0 ≤ fuel →
      exampleTable.setFromCache fuel 100 exampleCache =
        some (exampleTable.setEntry 9 exampleCache.Datfile) :=
  ⟨by decide, by decide, by decide,
    (setFromCache_adds 100 exampleTable exampleCache).2.1 (by decide) 9
      (by decide) (by decide) (by decide) (by decide)
      (fun k h1 h2 => by
        have h3 : firstStampOf 100 exampleCache = 7 := by decide
        rw [h3] at h1
        have hk : k = 7 ∨ k = 8 := by omega
        rcases hk with rfl | rfl <;> decide)⟩

/-- C21, the claim as written fails: the largest stamp of `int64` is taken and
is the first stamp of the cache; no stamp from it on is free, and
`setFromCache` gives the datfile the smallest stamp of `int64`, the counter
having wrapped around. -/
theorem setFromCache_wrap_counterexample :
    topTable.filekey2datkey topCache.Datfile = none ∧
    firstStampOf 0 topCache = 2 ^ 63 - 1 ∧
    topTable.setFromCache 2 0 topCache = some (topTable.setEntry (-2 ^ 63) topCache.Datfile) ∧
    (topTable.setEntry (-2 ^ 63) topCache.Datfile).filekey2datkey topCache.Datfile =
      some (-2 ^ 63) ∧
    (-2 ^ 63 : Int) < firstStampOf 0 topCache := by
  refine ⟨by decide, by decide, ?_, by decide, by decide⟩
  apply setFromCache_absent 2 0 topTable topCache _ (by decide)
  decide

theorem digitVal_digitChar : ∀ k, k < 10 → digitVal (Nat.digitChar k) = k := by
  decide

theorem foldl_toDigitsCore (fuel : Nat) : ∀ (n : Nat) (ds : Str), n < fuel →
    (Nat.toDigitsCore 10 fuel n ds).foldl (fun a c => 10 * a + digitVal c) 0 =
      ds.foldl (fun a c => 10 * a + digitVal c) n := by
  induction fuel with
  | zero => intro n ds h; exact absurd h (by omega)
  | succ fuel ih =>
    intro n ds h
    have hd : digitVal (Nat.digitChar (n % 10)) = n % 10 :=
      digitVal_digitChar _ (Nat.mod_lt _ (by decide))
    simp only [Nat.toDigitsCore]
    split
    · rename_i h0
      simp only [List.foldl_cons, hd]
      congr 1
      omega
    · rename_i h0
      rw [ih (n / 10) _ (by omega)]
      simp only [List.foldl_cons, hd]
      congr 1
      omega

theorem parseDigits_toDigits (n : Nat) : parseDigits (Nat.toDigits 10 n) = some n := by
  have hall : (Nat.toDigits 10 n).all Char.isDigit = true := by
    rw [List.all_eq_true]
    exact toDigits_isDigit n
  unfold parseDigits
  rw [if_pos ⟨toDigits_ne_nil n, hall⟩]
  unfold Nat.toDigits
  rw [foldl_toDigitsCore (n + 1) n [] (by omega)]
  rfl

/-- `strconv.ParseInt` reads back what `strconv.Itoa` writes, for a value of
`int64`. -/
theorem ParseInt_Itoa (x : Int) (h1 : -2 ^ 63 ≤ x) (h2 : x < 2 ^ 63) :
    ParseInt (Itoa x) = some x := by
  cases x with
  | ofNat n =>
    have hn : n < 2 ^ 63 := by
      have : (n : Int) < 2 ^ 63 := h2
      omega
    have hp := parseDigits_toDigits n
    simp only [Itoa]
    cases hds : Nat.toDigits 10 n with
    | nil => exact absurd hds (toDigits_ne_nil n)
    | cons c rest =>
      have hc : c.isDigit = true := toDigits_isDigit n c (by rw [hds]; exact List.mem_cons_self _ _)
      have hm : c ≠ '-' := isDigit_ne_of_not_isDigit c '-' hc (by decide)
      have hpl : c ≠ '+' := isDigit_ne_of_not_isDigit c '+' hc (by decide)
      rw [hds] at hp
      unfold ParseInt
      split
      · rename_i r heq
        exact absurd (List.cons.inj heq).1 hm
      · rename_i r heq
        exact absurd (List.cons.inj heq).1 hpl
      · simp only [hp, hn, if_true]
        rfl
  | negSucc n =>
    have hn : n + 1 ≤ 2 ^ 63 := by
      have h3 : -2 ^ 63 ≤ -((n : Int) + 1) := by
        rw [← Int.negSucc_eq]
        exact h1
      omega
    simp only [Itoa, ParseInt, parseDigits_toDigits (n + 1), hn, if_true]
    rfl

/-- C22: let the two maps be inverse to each other, their stamps and the first
stamp of the cache being values of `int64`, and let some stamp of `int64` be
free, as it is in every table that fits in memory.  Then `setFromCache`
terminates, the two maps are inverse to each other afterwards, and in the table
it leaves `getDatkey` finds, at its first lookup, a stamp `s` for the datfile
of the cache, for which `getFilekey` of the decimal text of `s` returns that
datfile. -/
theorem setFromCache_inverse (now : Int) (d : DatakeyTable) (ca : cache)
    (hinv : ∀ s f, d.datakey2filekey s = some f ↔ d.filekey2datkey f = some s)
    (hrange : ∀ s f, d.datakey2filekey s = some f → -2 ^ 63 ≤ s ∧ s < 2 ^ 63)
    (hfirst : -2 ^ 63 ≤ firstStampOf now ca ∧ firstStampOf now ca < 2 ^ 63)
    (hfree : ∃ s : Int, -2 ^ 63 ≤ s ∧ s < 2 ^ 63 ∧ d.datakey2filekey s = none) :
    ∃ (fuel0 : Nat) (d2 : DatakeyTable),
      (∀ fuel, fuel0 ≤ fuel → d.setFromCache fuel now ca = some d2) ∧
      (∀ s f, d2.datakey2filekey s = some f ↔ d2.filekey2datkey f = some s) ∧
      ∃ s : Int,
        (∀ fuel loadCache,
          d2.getDatkey fuel now loadCache ca.Datfile = some (d2, s, none)) ∧
        d2.getFilekey (Itoa s) = (ca.Datfile, none) := by
  cases hpres : d.filekey2datkey ca.Datfile with
  | some s0 =>
    have hd : d.datakey2filekey s0 = some ca.Datfile := (hinv s0 ca.Datfile).mpr hpres
    obtain ⟨hs1, hs2⟩ := hrange s0 ca.Datfile hd
    refine ⟨0, d, ?_, hinv, s0, ?_, ?_⟩
    · intro fuel _
      exact setFromCache_present fuel now d ca (by rw [hpres]; simp)
    · intro fuel loadCache
      simp [DatakeyTable.getDatkey, hpres]
    · simp [DatakeyTable.getFilekey, ParseInt_Itoa s0 hs1 hs2, hd]
  | none =>
    obtain ⟨i, hi, hmin⟩ := exists_first_free d.datakey2filekey (firstStampOf now ca) hfree
    obtain ⟨hw1, hw2⟩ := wrapInt64_range (firstStampOf now ca + i)
    have hl := setEntry_lookup d (wrapInt64 (firstStampOf now ca + i)) ca.Datfile
    refine ⟨i + 1, d.setEntry (wrapInt64 (firstStampOf now ca + i)) ca.Datfile, ?_, ?_,
      wrapInt64 (firstStampOf now ca + i), ?_, ?_⟩
    · intro fuel hfuel
      apply setFromCache_absent fuel now d ca _ hpres
      exact nextFreeStamp_found d.datakey2filekey i (firstStampOf now ca) fuel hfirst.1
        hfirst.2 hmin hi (by omega)
    · intro s f
      by_cases hs : s = wrapInt64 (firstStampOf now ca + i)
      · subst hs
        rw [hl.1]
        by_cases hf : f = ca.Datfile
        · subst hf
          rw [hl.2.1]
          simp
        · rw [hl.2.2.2 f hf]
          constructor
          · intro h
            exact absurd (Option.some.inj h).symm hf
          · intro h
            have := (hinv _ f).mpr h
            rw [hi] at this
            exact absurd this (by simp)
      · rw [hl.2.2.1 s hs]
        by_cases hf : f = ca.Datfile
        · subst hf
          rw [hl.2.1]
          constructor
          · intro h
            have := (hinv s ca.Datfile).mp h
            rw [hpres] at this
            exact absurd this (by simp)
          · intro h
            exact absurd (Option.some.inj h).symm hs
        · rw [hl.2.2.2 f hf]
          exact hinv s f
    · intro fuel loadCache
      simp [DatakeyTable.getDatkey, hl.2.1]
    · simp [DatakeyTable.getFilekey, ParseInt_Itoa _ hw1 hw2, hl.1]

/-- C22 on the example table and cache. -/
theorem setFromCache_inverse_witness :
    ∃ (fuel0 : Nat) (d2 : DatakeyTable),
      (∀ fuel, fuel0 ≤ fuel → exampleTable.setFromCache fuel 100 exampleCache = some d2) ∧
      (∀ s f, d2.datakey2filekey s = some f ↔ d2.filekey2datkey f = some s) ∧
      ∃ s : Int,
        (∀ fuel loadCache,
          d2.getDatkey fuel 100 loadCache exampleCache.Datfile = some (d2, s, none)) ∧
        d2.getFilekey (Itoa s) = (exampleCache.Datfile, none) :=
  setFromCache_inverse 100 exampleTable exampleCache
    (fun s f => by
      simp only [exampleTable, DatakeyTable.setEntry, newDatakeyTable, Function.update]
      by_cases h8 : s = 8 <;> by_cases h7 : s = 7 <;>
        by_cases hb : f = "b".toList <;> by_cases ha : f = "a".toList <;>
        simp_all <;> (intro h; subst h; simp_all))
    (fun s f h => by
      simp only [exampleTable, DatakeyTable.setEntry, newDatakeyTable, Function.update] at h
      by_cases h8 : s = 8
      · omega
      · by_cases h7 : s = 7
        · omega
        · simp [h8, h7] at h)
    (by decide)
    ⟨0, by decide, by decide, by decide⟩

end Gou
